import Mathlib

/-!
# Verification of the sliding-context retrieval/ranking/dedup engine

Shallow embedding of the core of the `openclaw-sliding-context` repository:

* `computeScore`, `deduplicateAndRank`, `significantWords`, `jaccardSimilarity`,
  `contentDedup`, `splitChronologicalAndRanked` — from the ranking module
  (`src/ranking.ts`, full variant with configurable decay half-life);
* `parseDedupResponse` — from `src/summarize-llm.ts`;
* `groupSimilar` and the store effect of `runCleanup` — from `scripts/cleanup.ts`.

Modelling conventions:

* JS `number` is modelled as `ℝ` where the code computes with `Math.exp` /
  arbitrary similarity scores, as `ℤ` for millisecond timestamps, and as `ℚ`
  where the code only forms ratios of integers (Jaccard similarity).
* JS strings are modelled as `List Char` in the response parser (a JS string
  is a sequence of code units; all inputs of interest are ASCII) and as
  `String` elsewhere.
* `Array.prototype.sort` is stable (ECMAScript 2019); it is modelled by
  `List.mergeSort`, Lean's stable merge sort.
* The floating-point `cosineSimilarity` (which uses `Math.sqrt`) and the
  external embedding/LLM services are modelled as parameters: the batch
  consolidator is embedded relative to an arbitrary real-valued similarity
  function on vectors and an arbitrary merged-entry constructor, and the
  theorems quantify over them.
-/

namespace SlidingContext

/-- Type `SessionType` from `src/types.ts`. -/
inductive SessionType where
  | dm | group | cron | webhook | isolated | unknown
deriving DecidableEq, Repr

/-- Structure `MessageRange` from `src/types.ts`. -/
structure MessageRange where
  startId : String
  endId : String
deriving DecidableEq, Repr

/-- Structure `ContextEntry` from `src/types.ts`.  Timestamps are in milliseconds. -/
structure ContextEntry where
  id : String
  summary : String
  vector : List ℝ
  sessionKey : String
  sessionType : SessionType
  channel : String
  timestamp : ℤ
  hasToolCalls : Bool
  hasDecision : Bool
  topics : List String
  sessionFile : Option String := none
  messageRange : Option MessageRange := none
  telegramMessageIds : Option (List ℤ) := none

/-- Structure `ContextSearchResult` from `src/types.ts`: an entry plus its raw
vector-search similarity. -/
structure ContextSearchResult where
  entry : ContextEntry
  score : ℝ

/-- Structure `ScoredEntry` from `src/types.ts`: an entry plus its transient
`finalScore`. -/
structure ScoredEntry extends ContextEntry where
  finalScore : ℝ

/-- Structure `RankingParams` from `src/ranking.ts` (full variant, with the
configurable `decayHalfLifeHours`). -/
structure RankingParams where
  currentSession : String
  now : ℤ
  maxEntries : ℕ
  decayHalfLifeHours : ℝ

/-- Function `computeScore` from `src/ranking.ts`:

```
let score = 0;
score += Math.min(semanticScore, 1) * 0.4;
const hoursAgo = (params.now - entry.timestamp) / 3_600_000;
const lambda = Math.LN2 / params.decayHalfLifeHours;
score += Math.exp(-lambda * hoursAgo) * 0.3;
if (entry.sessionKey === params.currentSession) score += 0.1;
if (entry.hasDecision || entry.hasToolCalls) score += 0.1;
if (entry.sessionType === "dm") score += 0.1;
return score;
```

`Math.LN2` is `Real.log 2`; `Math.exp` is `Real.exp`. -/
noncomputable def computeScore (entry : ContextEntry) (semanticScore : ℝ)
    (params : RankingParams) : ℝ :=
  let semanticTerm := min semanticScore 1 * 0.4
  let hoursAgo : ℝ := ((params.now : ℝ) - (entry.timestamp : ℝ)) / 3600000
  let lambda : ℝ := Real.log 2 / params.decayHalfLifeHours
  let recencyTerm := Real.exp (-lambda * hoursAgo) * 0.3
  let sessionBoost : ℝ := if entry.sessionKey = params.currentSession then 0.1 else 0
  let decisionBoost : ℝ := if entry.hasDecision || entry.hasToolCalls then 0.1 else 0
  let dmBoost : ℝ := if entry.sessionType = SessionType.dm then 0.1 else 0
  semanticTerm + recencyTerm + sessionBoost + decisionBoost + dmBoost

/-- One step of the scoring loops in `deduplicateAndRank`
(`src/ranking.ts`): skip the entry if its `id` was already seen, otherwise
record the `id` and append the scored entry.  The state is the pair
`(seen, scored)`. -/
noncomputable def scoreStep (params : RankingParams) (semanticScore : ContextEntry → ℝ)
    (acc : Finset String × List ScoredEntry) (e : ContextEntry) :
    Finset String × List ScoredEntry :=
  if e.id ∈ acc.1 then acc
  else (insert e.id acc.1, acc.2 ++ [⟨e, computeScore e (semanticScore e) params⟩])

/-- The `scored` list built by the two loops of `deduplicateAndRank`:
recent entries first (semantic score `0`), then semantic-search results
(with their returned similarity), deduplicated by `id` through the shared
`seen` set. -/
noncomputable def scoredList (recent : List ContextEntry)
    (relevant : List ContextSearchResult) (params : RankingParams) :
    List ScoredEntry :=
  let afterRecent := recent.foldl (scoreStep params fun _ => 0) (∅, [])
  let afterRelevant := relevant.foldl
    (fun acc r => scoreStep params (fun _ => r.score) acc r.entry) afterRecent
  afterRelevant.2

/-- The sort `scored.sort((a, b) => b.finalScore - a.finalScore)` from
`src/ranking.ts`.  `Array.prototype.sort` is stable, hence `mergeSort`. -/
noncomputable def sortByScoreDesc (l : List ScoredEntry) : List ScoredEntry :=
  l.mergeSort fun a b => decide (b.finalScore ≤ a.finalScore)

/-- The whitespace class used by JS `trim`, `\s` and `String.split(/\s+/)`
(restricted to the ASCII range actually exercised here). -/
def isWs (c : Char) : Bool := c.isWhitespace

/-- The character class kept by `significantWords`' replace step
(`src/ranking.ts`): `[a-zäöüß0-9\s-]` (the text is already lowercased). -/
def keepChar (c : Char) : Bool :=
  ('a' ≤ c && c ≤ 'z') || c = 'ä' || c = 'ö' || c = 'ü' || c = 'ß' ||
  ('0' ≤ c && c ≤ '9') || isWs c || c = '-'

/-- Split a character list at every whitespace character (the tokens of
`split(/\s+/)`; runs of whitespace additionally produce empty tokens here,
which the `length > 3` filter in `significantWords` removes in both
readings). -/
def splitWs : List Char → List (List Char)
  | [] => [[]]
  | c :: cs =>
    if isWs c then [] :: splitWs cs
    else match splitWs cs with
      | [] => [[c]]
      | t :: ts => (c :: t) :: ts

/-- Function `significantWords` from `src/ranking.ts`:

```
new Set(text.toLowerCase().replace(/[^a-zäöüß0-9\s-]/g, " ")
  .split(/\s+/).filter((w) => w.length > 3))
``` -/
def significantWords (text : String) : Finset String :=
  let lowered := text.data.map Char.toLower
  let replaced := lowered.map fun c => if keepChar c then c else ' '
  let tokens := (splitWs replaced).map fun w => String.mk w
  (tokens.filter fun w => 3 < w.length).toFinset

/-- Function `jaccardSimilarity` from `src/ranking.ts`:

```
if (a.size === 0 && b.size === 0) return 1;
let intersection = 0;
for (const w of a) if (b.has(w)) intersection++;
return intersection / (a.size + b.size - intersection);
``` -/
def jaccardSimilarity (a b : Finset String) : ℚ :=
  if a.card = 0 ∧ b.card = 0 then 1
  else ((a ∩ b).card : ℚ) / ((a.card + b.card - (a ∩ b).card : ℕ) : ℚ)

/-- The loop of `contentDedup` (`src/ranking.ts`): `result` holds the
accepted entries, `cache` their significant-word sets (the source's
`wordCache`, kept in lockstep with `result`). -/
def contentDedupGo (windowMs : ℤ) (threshold : ℚ) :
    List ScoredEntry → List ScoredEntry → List (Finset String) → List ScoredEntry
  | [], result, _ => result
  | e :: rest, result, cache =>
    let words := significantWords e.summary
    let isDup := (result.zip cache).any fun p =>
      decide (|e.timestamp - p.1.timestamp| ≤ windowMs) &&
      decide (threshold ≤ jaccardSimilarity words p.2)
    if isDup then contentDedupGo windowMs threshold rest result cache
    else contentDedupGo windowMs threshold rest (result ++ [e]) (cache ++ [words])

/-- Function `contentDedup` from `src/ranking.ts`: scan the (score-descending) input,
discarding any entry that is within `windowMs` of an already-accepted entry
and has Jaccard similarity `≥ threshold` with it.  The inner loop's
`if (Math.abs(entry.timestamp - existing.timestamp) > windowMs) continue`
is the `|·| ≤ windowMs` conjunct. -/
def contentDedup (entries : List ScoredEntry) (windowMs : ℤ := 3600000)
    (threshold : ℚ := 0.55) : List ScoredEntry :=
  contentDedupGo windowMs threshold entries [] []

/-- Function `deduplicateAndRank` from `src/ranking.ts`: score both input lists with
id-level dedup, sort by score descending (stable), run the content-level
dedup pass, and truncate to the budget. -/
noncomputable def deduplicateAndRank (recent : List ContextEntry)
    (relevant : List ContextSearchResult) (params : RankingParams) :
    List ScoredEntry :=
  (contentDedup (sortByScoreDesc (scoredList recent relevant params))).take
    params.maxEntries

/-- Function `splitChronologicalAndRanked` from `src/ranking.ts`:

```
const cutoff = now - recentWindowHours * 3_600_000;
// entry.timestamp >= cutoff → chronological, else ranked
chronological.sort((a, b) => a.timestamp - b.timestamp);
ranked.sort((a, b) => b.finalScore - a.finalScore);
``` -/
noncomputable def splitChronologicalAndRanked (entries : List ScoredEntry)
    (recentWindowHours : ℝ) (now : ℤ) : List ScoredEntry × List ScoredEntry :=
  let cutoff : ℝ := (now : ℝ) - recentWindowHours * 3600000
  let part := entries.partition fun e => decide (cutoff ≤ (e.timestamp : ℝ))
  (part.1.mergeSort fun a b => decide (a.timestamp ≤ b.timestamp),
   part.2.mergeSort fun a b => decide (b.finalScore ≤ a.finalScore))

/-! ## Turn classifier response parser (`src/summarize-llm.ts`) -/

/-- Type `SummarizeAction` from `src/summarize-llm.ts`. -/
inductive SummarizeAction where
  | new | update | skip
deriving DecidableEq, Repr

/-- Structure `SummarizeResult` from `src/summarize-llm.ts`.  The summary is kept as a
character list (a JS string); `replaceId` is only present for `update`. -/
structure SummarizeResult where
  action : SummarizeAction
  summary : List Char
  replaceId : Option String := none
deriving DecidableEq

/-- JS `String.prototype.trim`: drop leading and trailing whitespace. -/
def jsTrim (l : List Char) : List Char :=
  ((l.dropWhile isWs).reverse.dropWhile isWs).reverse

/-- Match a fixed uppercase pattern case-insensitively at the start of the
input (the effect of a literal-word prefix under the JS `i` flag), returning
the rest of the input on success. -/
def stripPrefixCI : List Char → List Char → Option (List Char)
  | [], l => some l
  | _ :: _, [] => none
  | p :: ps, c :: cs => if c.toUpper = p then stripPrefixCI ps cs else none

/-- The test `/^SKIP\s*$/i.test(trimmed)` from `parseDedupResponse`. -/
def matchSkip (l : List Char) : Bool :=
  match stripPrefixCI "SKIP".data l with
  | some rest => rest.all isWs
  | none => false

/-- JS `parseInt(ds, 10)` on a non-empty decimal digit string. -/
def digitsToNat (ds : List Char) : ℕ :=
  ds.foldl (fun acc c => 10 * acc + (c.toNat - '0'.toNat)) 0

/-- The match `trimmed.match(/^UPDATE\s*\[(\d+)]\s*:\s*(.+)/is)` from
`parseDedupResponse`, returning `parseInt` of group 1 together with
group 2 already `.trim()`ed (the only use the source makes of group 2).
The regex matches iff at least one character follows the colon; group 2 is
the colon's tail with as much leading whitespace stripped as leaves it
non-empty, so `group2.trim()` equals the colon's tail trimmed. -/
def matchUpdate (l : List Char) : Option (ℕ × List Char) :=
  match stripPrefixCI "UPDATE".data l with
  | none => none
  | some r1 =>
    match r1.dropWhile isWs with
    | '[' :: r3 =>
      let ds := r3.takeWhile Char.isDigit
      if ds = [] then none
      else match r3.dropWhile Char.isDigit with
        | ']' :: r5 =>
          match r5.dropWhile isWs with
          | ':' :: r7 => if r7 = [] then none else some (digitsToNat ds, jsTrim r7)
          | _ => none
        | _ => none
    | _ => none

/-- The match `trimmed.match(/^NEW\s*:\s*(.+)/is)` from
`parseDedupResponse`, returning group 1 already `.trim()`ed. -/
def matchNew (l : List Char) : Option (List Char) :=
  match stripPrefixCI "NEW".data l with
  | none => none
  | some r1 =>
    match r1.dropWhile isWs with
    | ':' :: r3 => if r3 = [] then none else some (jsTrim r3)
    | _ => none

/-- Function `parseDedupResponse` from `src/summarize-llm.ts`:

```
const trimmed = text.trim();
if (/^SKIP\s*$/i.test(trimmed)) return { action: "skip", summary: "" };
const updateMatch = trimmed.match(/^UPDATE\s*\[(\d+)]\s*:\s*(.+)/is);
if (updateMatch) {
  const idx = parseInt(updateMatch[1], 10) - 1;
  const summary = updateMatch[2].trim();
  if (idx >= 0 && idx < recentEntries.length && summary.length >= 10)
    return { action: "update", summary, replaceId: recentEntries[idx].id };
  return { action: "new", summary: summary || trimmed };
}
const newMatch = trimmed.match(/^NEW\s*:\s*(.+)/is);
if (newMatch) return { action: "new", summary: newMatch[1].trim() };
return { action: "new", summary: trimmed };
``` -/
def parseDedupResponse (text : List Char) (recentEntries : List ContextEntry) :
    SummarizeResult :=
  let trimmed := jsTrim text
  if matchSkip trimmed then { action := .skip, summary := [] }
  else match matchUpdate trimmed with
    | some (n, summary) =>
      let idx : ℤ := (n : ℤ) - 1
      if 0 ≤ idx ∧ idx < (recentEntries.length : ℤ) ∧ 10 ≤ summary.length then
        { action := .update, summary := summary,
          replaceId := (recentEntries.get? idx.toNat).map (·.id) }
      else { action := .new, summary := if summary = [] then trimmed else summary }
    | none =>
      match matchNew trimmed with
      | some s => { action := .new, summary := s }
      | none => { action := .new, summary := trimmed }

/-! ## Batch consolidator (`scripts/cleanup.ts`)

`groupSimilar` compares entries with `cosineSimilarity(a.vector, b.vector)`,
a real-valued function of the two embedding vectors (computed in the source
with `Math.sqrt` over floating-point numbers).  The development is
parameterized by an arbitrary similarity function `vecSim` on vectors, and
every theorem quantifies over it. -/

/-- The inner loop of `groupSimilar` (`scripts/cleanup.ts`): scan the
entries after the seed `a`, absorbing every not-yet-used entry whose
similarity with the seed is `≥ threshold`.  State: `(group, used)`. -/
noncomputable def absorbFold (vecSim : List ℝ → List ℝ → ℝ) (threshold : ℝ)
    (a : ContextEntry) (rest : List ContextEntry)
    (init : List ContextEntry × Finset String) :
    List ContextEntry × Finset String :=
  rest.foldl
    (fun acc b =>
      if b.id ∈ acc.2 then acc
      else if threshold ≤ vecSim a.vector b.vector then
        (acc.1 ++ [b], insert b.id acc.2)
      else acc)
    init

/-- The outer loop of `groupSimilar` (`scripts/cleanup.ts`): each entry not
yet in `used` seeds a cluster `[a]`, absorbs later unused similar entries,
and the cluster is kept only if it has more than one member. -/
noncomputable def groupSimilarAux (vecSim : List ℝ → List ℝ → ℝ)
    (threshold : ℝ) : List ContextEntry → Finset String →
    List (List ContextEntry)
  | [], _ => []
  | a :: rest, used =>
    if a.id ∈ used then groupSimilarAux vecSim threshold rest used
    else
      let r := absorbFold vecSim threshold a rest ([a], insert a.id used)
      let tail := groupSimilarAux vecSim threshold rest r.2
      if 1 < r.1.length then r.1 :: tail else tail

/-- Function `groupSimilar` from `scripts/cleanup.ts`, relative to a similarity
function on vectors. -/
noncomputable def groupSimilar (vecSim : List ℝ → List ℝ → ℝ)
    (entries : List ContextEntry) (threshold : ℝ) :
    List (List ContextEntry) :=
  groupSimilarAux vecSim threshold entries ∅

/-- Reference recursion for `groupSimilar` on fresh ids (spec wording):
seed with the first entry, absorb every later entry similar to the seed,
recurse on the dissimilar remainder; keep clusters of size `≥ 2` only.
Used to relate the `used`-set implementation to its intended behaviour. -/
noncomputable def groupSpec (vecSim : List ℝ → List ℝ → ℝ) (threshold : ℝ) :
    List ContextEntry → List (List ContextEntry)
  | [] => []
  | a :: rest =>
    let absorbed := rest.filter fun b => decide (threshold ≤ vecSim a.vector b.vector)
    let remaining := rest.filter fun b => !decide (threshold ≤ vecSim a.vector b.vector)
    if absorbed.isEmpty then groupSpec vecSim threshold remaining
    else (a :: absorbed) :: groupSpec vecSim threshold remaining
termination_by l => l.length
decreasing_by
  simp only [List.length_cons]
  exact Nat.lt_succ_of_le (List.length_filter_le _ _)

/-- The ids of all members of the clusters produced by a grouping. -/
def memberIds (groups : List (List ContextEntry)) : List String :=
  groups.flatten.map (·.id)

/-- The store contents after one (non-dry-run) `runCleanup`
(`scripts/cleanup.ts`): every member of every cluster is deleted by id, and
one merged entry per cluster is inserted.  The merged entry's summary comes
from the LLM merge call, its vector from re-embedding that summary, and its
metadata from the newest member — all of which reduce to some function
`mkMerged` of the cluster, over which the theorems quantify (LLM and
embedding service are external collaborators with no structural
guarantees). -/
noncomputable def afterCleanup (vecSim : List ℝ → List ℝ → ℝ)
    (mkMerged : List ContextEntry → ContextEntry)
    (entries : List ContextEntry) (threshold : ℝ) : List ContextEntry :=
  let groups := groupSimilar vecSim entries threshold
  entries.filter (fun e => e.id ∉ memberIds groups) ++ groups.map mkMerged

/-! ## Specification-level reference definitions

These restate the spec's wording of the content dedup pass; the theorems
relate them to the embedded source functions. -/

open Classical in
/-- One step of the content dedup pass as the spec words it: discard the
candidate `e` iff some already-accepted entry whose timestamp lies within
the window of `e`'s has Jaccard similarity `≥ threshold` with it. -/
noncomputable def dedupKeep (windowMs : ℤ) (threshold : ℚ)
    (acc : List ScoredEntry) (e : ScoredEntry) : List ScoredEntry :=
  if ∃ x ∈ acc, |x.timestamp - e.timestamp| ≤ windowMs ∧
      threshold ≤ jaccardSimilarity (significantWords e.summary)
        (significantWords x.summary)
  then acc else acc ++ [e]

/-- The content dedup pass as the spec words it (no word cache). -/
noncomputable def contentDedupSpec (entries : List ScoredEntry)
    (windowMs : ℤ) (threshold : ℚ) : List ScoredEntry :=
  entries.foldl (dedupKeep windowMs threshold) []

/-! ## Concrete sample data used by witnesses and counterexamples -/

/-- A scored entry with the given id, summary and timestamp and neutral
remaining fields. -/
def mkScored (id : String) (summary : String) (ts : ℤ) : ScoredEntry :=
  { id := id, summary := summary, vector := [], sessionKey := "s",
    sessionType := .group, channel := "c", timestamp := ts,
    hasToolCalls := false, hasDecision := false, topics := [],
    finalScore := 0 }

/-- A neutral sample entry: no boosts apply, timestamp `0`. -/
def sampleEntry : ContextEntry :=
  { id := "e0", summary := "", vector := [], sessionKey := "s0",
    sessionType := .group, channel := "c0", timestamp := 0,
    hasToolCalls := false, hasDecision := false, topics := [] }

/-- Sample ranking parameters: querying session differs from the entry's,
reference time `0`, half-life 12 hours. -/
def sampleParams : RankingParams :=
  { currentSession := "other", now := 0, maxEntries := 12,
    decayHalfLifeHours := 12 }

/-- A reference entry with the given id and neutral remaining fields. -/
def mkEntry (id : String) : ContextEntry :=
  { id := id, summary := "", vector := [], sessionKey := "s",
    sessionType := .group, channel := "c", timestamp := 0,
    hasToolCalls := false, hasDecision := false, topics := [] }

/-- A similarity function for witnesses: `0.9` on the vector pair
`([1], [2])`, `0.2` everywhere else. -/
noncomputable def vecSimPair : List ℝ → List ℝ → ℝ := fun u v =>
  if u = [1] ∧ v = [2] then 0.9 else 0.2

/-- A similarity function for the re-clustering counterexample: `0.9` on
`([1], [2])` and on `([3], [4])`, `0.2` everywhere else — so the merged
entry (vector `[4]`) is similar to the surviving entry (vector `[3]`). -/
noncomputable def vecSimChain : List ℝ → List ℝ → ℝ := fun u v =>
  if (u = [1] ∧ v = [2]) ∨ (u = [3] ∧ v = [4]) then 0.9 else 0.2

/-- Concrete entries for the consolidator witnesses and counterexample. -/
def cleanupA : ContextEntry := { mkEntry "a" with vector := [1] }
def cleanupB : ContextEntry := { mkEntry "b" with vector := [2] }
def cleanupC : ContextEntry := { mkEntry "c" with vector := [3] }
def cleanupM : ContextEntry := { mkEntry "m" with vector := [4] }

/-! ## C1 — range and monotonicity of `computeScore` -/

/-- Each flat boost of `computeScore` lies in `[0, 0.1]`. -/
lemma boost_bounds (c : Prop) [Decidable c] :
    0 ≤ (if c then (0.1:ℝ) else 0) ∧ (if c then (0.1:ℝ) else 0) ≤ 0.1 := by
  split_ifs <;> norm_num

/-- C1, counterexample.  As stated — for *every* `semanticSimilarity` and
*every* reference time — the claim is false on the code:
(1) a negative `semanticSimilarity` is not clamped below, driving the score
below `0`; (2) an entry whose timestamp lies in the future of `params.now`
gets a recency factor above `1`, driving the score above `1`; (3) with a
negative configured half-life the score *increases* with `hoursAgo`. -/
theorem computeScore_unit_interval_counterexample :
    computeScore sampleEntry (-1) sampleParams < 0 ∧
    1 < computeScore { sampleEntry with timestamp := 86400000 } 1 sampleParams ∧
    computeScore { sampleEntry with timestamp := 0 } 0
        { sampleParams with decayHalfLifeHours := -12 } <
      computeScore { sampleEntry with timestamp := -43200000 } 0
        { sampleParams with decayHalfLifeHours := -12 } := by
  refine ⟨?_, ?_, ?_⟩
  · simp only [computeScore, sampleEntry, sampleParams]
    rw [if_neg (by decide), if_neg (by decide), if_neg (by decide)]
    norm_num [Real.exp_zero]
  · simp only [computeScore, sampleEntry, sampleParams]
    rw [if_neg (by decide), if_neg (by decide), if_neg (by decide)]
    have h : -(Real.log 2 / 12) * ((((0:ℤ) : ℝ) - ((86400000:ℤ) : ℝ)) / 3600000) =
        Real.log 4 := by
      rw [show (4:ℝ) = 2 ^ (2:ℕ) by norm_num, Real.log_pow]
      push_cast
      ring
    rw [h, Real.exp_log (by norm_num : (0:ℝ) < 4)]
    norm_num
  · simp only [computeScore, sampleEntry, sampleParams]
    rw [if_neg (by decide), if_neg (by decide), if_neg (by decide)]
    have h : -(Real.log 2 / (-12)) *
        ((((0:ℤ) : ℝ) - ((-43200000:ℤ) : ℝ)) / 3600000) = Real.log 2 := by
      push_cast
      ring
    rw [h, Real.exp_log (by norm_num : (0:ℝ) < 2)]
    norm_num [Real.exp_zero]

/-- C1, amended.  For non-negative `semanticSimilarity`, an entry not in the
future of `params.now`, and a positive configured half-life, `computeScore`
lies in `[0, 1]`; it is non-decreasing in `semanticSimilarity`
unconditionally, and non-increasing in `hoursAgo` (i.e. non-decreasing in
the entry's timestamp) whenever the half-life is positive. -/
theorem computeScore_bounds_and_monotonicity (e : ContextEntry)
    (p : RankingParams) (s s1 s2 : ℝ) (t1 t2 : ℤ)
    (hs : 0 ≤ s) (ht : e.timestamp ≤ p.now) (hhl : 0 < p.decayHalfLifeHours)
    (h12 : s1 ≤ s2) (ht12 : t1 ≤ t2) :
    (0 ≤ computeScore e s p ∧ computeScore e s p ≤ 1) ∧
    computeScore e s1 p ≤ computeScore e s2 p ∧
    computeScore { e with timestamp := t1 } s p ≤
      computeScore { e with timestamp := t2 } s p := by
  have hlam : 0 ≤ Real.log 2 / p.decayHalfLifeHours :=
    div_nonneg (Real.log_nonneg (by norm_num)) hhl.le
  have hb1 := boost_bounds (e.sessionKey = p.currentSession)
  have hb2 := boost_bounds (e.hasDecision || e.hasToolCalls : Bool)
  have hb3 := boost_bounds (e.sessionType = SessionType.dm)
  refine ⟨⟨?_, ?_⟩, ?_, ?_⟩
  · simp only [computeScore]
    have h1 : 0 ≤ min s 1 * 0.4 := mul_nonneg (le_min hs zero_le_one) (by norm_num)
    have h2 : 0 ≤ Real.exp (-(Real.log 2 / p.decayHalfLifeHours) *
        (((p.now : ℝ) - (e.timestamp : ℝ)) / 3600000)) * 0.3 :=
      mul_nonneg (Real.exp_nonneg _) (by norm_num)
    linarith [hb1.1, hb2.1, hb3.1]
  · simp only [computeScore]
    have h1 : min s 1 * 0.4 ≤ 0.4 := by
      have := min_le_right s 1
      nlinarith
    have hh : 0 ≤ ((p.now : ℝ) - (e.timestamp : ℝ)) / 3600000 :=
      div_nonneg (sub_nonneg.mpr (Int.cast_le.mpr ht)) (by norm_num)
    have h2 : Real.exp (-(Real.log 2 / p.decayHalfLifeHours) *
        (((p.now : ℝ) - (e.timestamp : ℝ)) / 3600000)) ≤ 1 := by
      rw [Real.exp_le_one_iff]
      have := mul_nonneg hlam hh
      linarith
    linarith [hb1.2, hb2.2, hb3.2]
  · simp only [computeScore]
    have h1 : min s1 1 * 0.4 ≤ min s2 1 * 0.4 := by
      have : min s1 1 ≤ min s2 1 := min_le_min h12 le_rfl
      nlinarith [this]
    linarith
  · simp only [computeScore]
    have hcast : (t1 : ℝ) ≤ (t2 : ℝ) := Int.cast_le.mpr ht12
    have hh : ((p.now : ℝ) - (t2 : ℝ)) / 3600000 ≤
        ((p.now : ℝ) - (t1 : ℝ)) / 3600000 := by
      apply (div_le_div_iff_of_pos_right (by norm_num : (0:ℝ) < 3600000)).mpr
      linarith
    have hexp : Real.exp (-(Real.log 2 / p.decayHalfLifeHours) *
        (((p.now : ℝ) - (t1 : ℝ)) / 3600000)) ≤
        Real.exp (-(Real.log 2 / p.decayHalfLifeHours) *
        (((p.now : ℝ) - (t2 : ℝ)) / 3600000)) := by
      apply Real.exp_le_exp.mpr
      have := mul_le_mul_of_nonneg_left hh hlam
      linarith
    linarith

/-- C1, witness: the amended theorem applied at a concrete entry,
parameters, similarity pair `0.2 ≤ 0.5` and timestamp pair `-100 ≤ 0`. -/
theorem computeScore_bounds_and_monotonicity_witness :
    (0 ≤ computeScore sampleEntry 0.5 sampleParams ∧
      computeScore sampleEntry 0.5 sampleParams ≤ 1) ∧
    computeScore sampleEntry 0.2 sampleParams ≤
      computeScore sampleEntry 0.5 sampleParams ∧
    computeScore { sampleEntry with timestamp := -100 } 0.5 sampleParams ≤
      computeScore { sampleEntry with timestamp := 0 } 0.5 sampleParams :=
  computeScore_bounds_and_monotonicity sampleEntry sampleParams 0.5 0.2 0.5
    (-100) 0 (by norm_num)
    (by simp [sampleEntry, sampleParams])
    (by norm_num [sampleParams])
    (by norm_num) (by norm_num)

/-! ## C2 — exact 50% recency decay at the configured half-life -/

/-- C2: the recency contribution of `computeScore` is
`exp(-(ln 2 / halfLife) · hoursAgo) · 0.3`, and it equals exactly `0.15`
when `hoursAgo` equals the configured positive half-life; consequently the
whole score is the semantic term plus `0.15` plus the boosts. -/
theorem computeScore_half_life_decay (e : ContextEntry) (p : RankingParams)
    (s : ℝ) (hhl : 0 < p.decayHalfLifeHours)
    (ht : ((p.now : ℝ) - (e.timestamp : ℝ)) / 3600000 = p.decayHalfLifeHours) :
    Real.exp (-(Real.log 2 / p.decayHalfLifeHours) *
        (((p.now : ℝ) - (e.timestamp : ℝ)) / 3600000)) * 0.3 = 0.15 ∧
    computeScore e s p =
      min s 1 * 0.4 + 0.15 +
        ((if e.sessionKey = p.currentSession then 0.1 else 0) +
         (if e.hasDecision || e.hasToolCalls then 0.1 else 0) +
         (if e.sessionType = SessionType.dm then 0.1 else 0)) := by
  have key : Real.exp (-(Real.log 2 / p.decayHalfLifeHours) *
      (((p.now : ℝ) - (e.timestamp : ℝ)) / 3600000)) * 0.3 = 0.15 := by
    rw [ht]
    have h : -(Real.log 2 / p.decayHalfLifeHours) * p.decayHalfLifeHours =
        -Real.log 2 := by
      field_simp
    rw [h, Real.exp_neg, Real.exp_log (by norm_num : (0:ℝ) < 2)]
    norm_num
  refine ⟨key, ?_⟩
  simp only [computeScore]
  linarith [key]

/-- C2, witness: with the default 18-hour half-life and an entry exactly 18
hours old, the score of a boost-free entry with semantic similarity 1 is
`0.4 + 0.15 = 0.55`. -/
theorem computeScore_half_life_decay_witness :
    computeScore sampleEntry 1
      { currentSession := "other", now := 64800000, maxEntries := 12,
        decayHalfLifeHours := 18 } = 0.55 := by
  have h := computeScore_half_life_decay sampleEntry
    { currentSession := "other", now := 64800000, maxEntries := 12,
      decayHalfLifeHours := 18 } 1 (by norm_num)
    (by simp [sampleEntry]; norm_num)
  rw [h.2]
  rw [if_neg (by decide), if_neg (by decide), if_neg (by decide)]
  norm_num

/-! ## Content dedup pass — structural lemmas -/

/-- The loop `contentDedupGo` only ever appends to `result`: the output is `result`
followed by a sublist of the remaining input. -/
lemma contentDedupGo_append (w : ℤ) (th : ℚ) :
    ∀ (l res : List ScoredEntry) (cache : List (Finset String)),
      ∃ t, contentDedupGo w th l res cache = res ++ t ∧ t.Sublist l
  | [], res, cache => ⟨[], by simp [contentDedupGo]⟩
  | e :: rest, res, cache => by
    simp only [contentDedupGo]
    split
    · obtain ⟨t, ht, hs⟩ := contentDedupGo_append w th rest res cache
      exact ⟨t, ht, hs.cons e⟩
    · obtain ⟨t, ht, hs⟩ := contentDedupGo_append w th rest (res ++ [e])
        (cache ++ [significantWords e.summary])
      exact ⟨e :: t, by simpa using ht, hs.cons₂ e⟩

/-- Zipping a list with its image under `f` pairs each element with its
image. -/
lemma zip_map_self (f : ScoredEntry → Finset String) (res : List ScoredEntry) :
    res.zip (res.map f) = res.map fun x => (x, f x) := by
  induction res with
  | nil => simp
  | cons a l ih => simp [ih]

/-- The duplicate test of `contentDedupGo` (over the word cache) agrees with
the spec-level existential of `dedupKeep`. -/
lemma contentDedupGo_any_iff (w : ℤ) (th : ℚ) (e : ScoredEntry)
    (res : List ScoredEntry) :
    ((res.zip (res.map fun x => significantWords x.summary)).any fun p =>
      decide (|e.timestamp - p.1.timestamp| ≤ w) &&
      decide (th ≤ jaccardSimilarity (significantWords e.summary) p.2)) = true ↔
    ∃ x ∈ res, |x.timestamp - e.timestamp| ≤ w ∧
      th ≤ jaccardSimilarity (significantWords e.summary)
        (significantWords x.summary) := by
  simp only [zip_map_self, List.any_eq_true]
  constructor
  · rintro ⟨px, hpx, hp⟩
    obtain ⟨x, hx, rfl⟩ := List.mem_map.mp hpx
    simp only [Bool.and_eq_true, decide_eq_true_eq] at hp
    exact ⟨x, hx, by rw [abs_sub_comm]; exact hp.1, hp.2⟩
  · rintro ⟨x, hx, h1, h2⟩
    refine ⟨(x, significantWords x.summary), List.mem_map_of_mem _ hx, ?_⟩
    simp only [Bool.and_eq_true, decide_eq_true_eq]
    exact ⟨by rw [abs_sub_comm]; exact h1, h2⟩

/-- The cached implementation loop equals the spec-level fold, as long as
the cache holds exactly the accepted entries' word sets. -/
lemma contentDedupGo_eq_spec (w : ℤ) (th : ℚ) :
    ∀ (l res : List ScoredEntry),
      contentDedupGo w th l res (res.map fun x => significantWords x.summary) =
        l.foldl (dedupKeep w th) res
  | [], res => by simp [contentDedupGo]
  | e :: rest, res => by
    simp only [contentDedupGo, List.foldl_cons]
    by_cases hdup : ∃ x ∈ res, |x.timestamp - e.timestamp| ≤ w ∧
        th ≤ jaccardSimilarity (significantWords e.summary)
          (significantWords x.summary)
    · rw [if_pos ((contentDedupGo_any_iff w th e res).mpr hdup)]
      rw [show dedupKeep w th res e = res from by rw [dedupKeep, if_pos hdup]]
      exact contentDedupGo_eq_spec w th rest res
    · rw [if_neg (by rw [contentDedupGo_any_iff w th e res]; exact hdup)]
      rw [show dedupKeep w th res e = res ++ [e] from by
        rw [dedupKeep, if_neg hdup]]
      have h := contentDedupGo_eq_spec w th rest (res ++ [e])
      rw [← h]
      simp

/-- C5: the content dedup pass equals its specification (candidate discarded
iff some already-accepted entry within the time window has Jaccard
similarity `≥ threshold` with it); its output is an order-preserving
sublist of the input; and the first input entry is always kept, at the head
of the output. -/
theorem contentDedup_spec_sublist_head (entries : List ScoredEntry)
    (w : ℤ) (th : ℚ) :
    contentDedup entries w th = contentDedupSpec entries w th ∧
    (contentDedup entries w th).Sublist entries ∧
    ∀ (e : ScoredEntry) (es : List ScoredEntry),
      (contentDedup (e :: es) w th).head? = some e := by
  refine ⟨?_, ?_, ?_⟩
  · simpa [contentDedup, contentDedupSpec] using
      contentDedupGo_eq_spec w th entries []
  · obtain ⟨t, ht, hs⟩ := contentDedupGo_append w th entries [] []
    simpa [contentDedup, ht] using hs
  · intro e es
    have h0 : (List.zip ([] : List ScoredEntry) ([] : List (Finset String))).any
        (fun p => decide (|e.timestamp - p.1.timestamp| ≤ w) &&
          decide (th ≤ jaccardSimilarity (significantWords e.summary) p.2)) =
        false := by simp
    obtain ⟨t, ht, _⟩ := contentDedupGo_append w th es [e]
      [significantWords e.summary]
    simp [contentDedup, contentDedupGo, h0, ht]

/-- Jaccard similarity of two empty word sets is `1` (the guard branch of
`jaccardSimilarity`). -/
lemma jaccard_empty_empty : jaccardSimilarity ∅ ∅ = 1 := by
  simp [jaccardSimilarity]

/-- No two entries with empty significant-word sets and timestamps within
the window of each other both survive the dedup loop (threshold ≤ 1):
whichever is accepted first blocks every later one within its window. -/
lemma contentDedupGo_pairwise_empty (w : ℤ) (th : ℚ) (hth : th ≤ 1) :
    ∀ (l res : List ScoredEntry),
      List.Pairwise (fun x y => significantWords x.summary = ∅ →
        significantWords y.summary = ∅ →
        |x.timestamp - y.timestamp| ≤ w → False) res →
      List.Pairwise (fun x y => significantWords x.summary = ∅ →
        significantWords y.summary = ∅ →
        |x.timestamp - y.timestamp| ≤ w → False)
        (contentDedupGo w th l res
          (res.map fun x => significantWords x.summary))
  | [], res, h => by simpa [contentDedupGo] using h
  | e :: rest, res, h => by
    simp only [contentDedupGo]
    by_cases hany : ((res.zip (res.map fun x => significantWords x.summary)).any
        fun p => decide (|e.timestamp - p.1.timestamp| ≤ w) &&
          decide (th ≤ jaccardSimilarity (significantWords e.summary) p.2)) = true
    · rw [if_pos hany]
      exact contentDedupGo_pairwise_empty w th hth rest res h
    · rw [if_neg hany]
      rw [show res.map (fun x => significantWords x.summary) ++
          [significantWords e.summary] =
          (res ++ [e]).map fun x => significantWords x.summary by simp]
      apply contentDedupGo_pairwise_empty w th hth rest (res ++ [e])
      refine List.pairwise_append.mpr ⟨h, List.pairwise_singleton _ _, ?_⟩
      intro x hx y hy
      rw [List.mem_singleton] at hy
      intro hxe hye hw
      rw [hy] at hye hw
      apply hany
      rw [contentDedupGo_any_iff w th e res]
      refine ⟨x, hx, hw, ?_⟩
      rw [hxe, hye, jaccard_empty_empty]
      exact hth

/-- C10, amended.  The Jaccard similarity of two empty significant-word
sets is defined as `1`; consequently (for any threshold `≤ 1`) the output
of the content dedup pass never retains two entries that both have empty
significant-word sets and timestamps within the window of each other — the
later one is discarded whenever the earlier one was itself accepted.  (The
unconditional "always discarded" of the claim fails: the earlier entry may
itself have been discarded by an accepted entry outside the later one's
window; see the counterexample.) -/
theorem contentDedup_empty_word_pairs (l : List ScoredEntry) (w : ℤ)
    (th : ℚ) (hth : th ≤ 1) :
    jaccardSimilarity ∅ ∅ = 1 ∧
    List.Pairwise (fun x y => significantWords x.summary = ∅ →
      significantWords y.summary = ∅ →
      |x.timestamp - y.timestamp| ≤ w → False) (contentDedup l w th) := by
  refine ⟨jaccard_empty_empty, ?_⟩
  have h := contentDedupGo_pairwise_empty w th hth l [] List.Pairwise.nil
  simpa [contentDedup] using h

/-- C10, witness: the amended theorem at the concrete threshold `0.55` and
window `3600000` on a three-entry list. -/
theorem contentDedup_empty_word_pairs_witness :
    jaccardSimilarity ∅ ∅ = 1 ∧
    List.Pairwise (fun x y => significantWords x.summary = ∅ →
      significantWords y.summary = ∅ →
      |x.timestamp - y.timestamp| ≤ 3600000 → False)
      (contentDedup [mkScored "k" "a b" 0, mkScored "i" "c d" 3600000,
        mkScored "j" "e f" 7200000] 3600000 0.55) :=
  contentDedup_empty_word_pairs
    [mkScored "k" "a b" 0, mkScored "i" "c d" 3600000,
      mkScored "j" "e f" 7200000] 3600000 0.55 (by norm_num)

/-- C10, counterexample to "the later one is always discarded": entries
`i` (at 60 min) and `j` (at 120 min) both have empty significant-word sets
and lie within the 60-minute window of each other, yet `j` survives the
pass — `i` was discarded by the accepted entry `k` (at 0 min), which lies
outside `j`'s window. -/
theorem contentDedup_empty_word_late_survivor :
    significantWords (mkScored "i" "c d" 3600000).summary = ∅ ∧
    significantWords (mkScored "j" "e f" 7200000).summary = ∅ ∧
    |(mkScored "i" "c d" 3600000).timestamp -
      (mkScored "j" "e f" 7200000).timestamp| ≤ 3600000 ∧
    (contentDedup [mkScored "k" "a b" 0, mkScored "i" "c d" 3600000,
      mkScored "j" "e f" 7200000]).map (·.id) = ["k", "j"] := by
  have hab : significantWords "a b" = ∅ := by decide
  have hcd : significantWords "c d" = ∅ := by decide
  have hef : significantWords "e f" = ∅ := by decide
  refine ⟨by decide, by decide, by decide, ?_⟩
  have hspec := contentDedupGo_eq_spec 3600000 0.55
    [mkScored "k" "a b" 0, mkScored "i" "c d" 3600000,
      mkScored "j" "e f" 7200000] []
  rw [show contentDedup [mkScored "k" "a b" 0, mkScored "i" "c d" 3600000,
      mkScored "j" "e f" 7200000] =
      contentDedupGo 3600000 0.55 [mkScored "k" "a b" 0,
        mkScored "i" "c d" 3600000, mkScored "j" "e f" 7200000] [] [] from rfl]
  rw [show ([] : List (Finset String)) =
      ([] : List ScoredEntry).map (fun x => significantWords x.summary) from rfl]
  rw [hspec]
  simp only [List.foldl_cons, List.foldl_nil]
  have hk : dedupKeep 3600000 0.55 [] (mkScored "k" "a b" 0) =
      [mkScored "k" "a b" 0] := by
    rw [dedupKeep, if_neg (by simp)]
    simp
  have hicond : ∃ x ∈ [mkScored "k" "a b" 0],
      |x.timestamp - (mkScored "i" "c d" 3600000).timestamp| ≤ 3600000 ∧
      (0.55:ℚ) ≤ jaccardSimilarity
        (significantWords (mkScored "i" "c d" 3600000).summary)
        (significantWords x.summary) := by
    refine ⟨mkScored "k" "a b" 0, by simp, by simp [mkScored], ?_⟩
    rw [show (mkScored "i" "c d" 3600000).summary = "c d" from rfl,
      show (mkScored "k" "a b" 0).summary = "a b" from rfl, hcd, hab,
      jaccard_empty_empty]
    norm_num
  have hi : dedupKeep 3600000 0.55 [mkScored "k" "a b" 0]
      (mkScored "i" "c d" 3600000) = [mkScored "k" "a b" 0] := by
    rw [dedupKeep, if_pos hicond]
  have hjcond : ¬∃ x ∈ [mkScored "k" "a b" 0],
      |x.timestamp - (mkScored "j" "e f" 7200000).timestamp| ≤ 3600000 ∧
      (0.55:ℚ) ≤ jaccardSimilarity
        (significantWords (mkScored "j" "e f" 7200000).summary)
        (significantWords x.summary) := by
    rintro ⟨x, hx, h1, -⟩
    rw [List.mem_singleton] at hx
    rw [hx] at h1
    simp [mkScored] at h1
  have hj : dedupKeep 3600000 0.55 [mkScored "k" "a b" 0]
      (mkScored "j" "e f" 7200000) =
      [mkScored "k" "a b" 0, mkScored "j" "e f" 7200000] := by
    rw [dedupKeep, if_neg hjcond]
    simp
  rw [hk, hi, hj]
  simp [mkScored]

/-! ## C6 — chronological/ranked splitter -/

/-- C6: `splitChronologicalAndRanked` sends an entry to `chronological` iff
`now − timestamp ≤ recentWindowHours` in milliseconds and to `ranked`
otherwise (so each input entry lands in exactly one output list, with
multiplicity, and none is dropped); `chronological` is sorted ascending by
timestamp and `ranked` descending by `finalScore`. -/
theorem splitChronologicalAndRanked_partition (entries : List ScoredEntry)
    (recentWindowHours : ℝ) (now : ℤ) :
    (splitChronologicalAndRanked entries recentWindowHours now).1.Perm
      (entries.filter fun e =>
        decide ((now : ℝ) - (e.timestamp : ℝ) ≤ recentWindowHours * 3600000)) ∧
    (splitChronologicalAndRanked entries recentWindowHours now).2.Perm
      (entries.filter fun e =>
        !decide ((now : ℝ) - (e.timestamp : ℝ) ≤ recentWindowHours * 3600000)) ∧
    ((splitChronologicalAndRanked entries recentWindowHours now).1 ++
      (splitChronologicalAndRanked entries recentWindowHours now).2).Perm
      entries ∧
    (splitChronologicalAndRanked entries recentWindowHours now).1.Pairwise
      (fun a b => a.timestamp ≤ b.timestamp) ∧
    (splitChronologicalAndRanked entries recentWindowHours now).2.Pairwise
      (fun a b => b.finalScore ≤ a.finalScore) := by
  have hcond : ∀ e : ScoredEntry,
      (decide ((now : ℝ) - recentWindowHours * 3600000 ≤ (e.timestamp : ℝ))) =
      (decide ((now : ℝ) - (e.timestamp : ℝ) ≤ recentWindowHours * 3600000)) :=
    fun e => decide_eq_decide.mpr (by constructor <;> intro <;> linarith)
  have hchron : (splitChronologicalAndRanked entries recentWindowHours now).1.Perm
      (entries.filter fun e =>
        decide ((now : ℝ) - (e.timestamp : ℝ) ≤ recentWindowHours * 3600000)) := by
    unfold splitChronologicalAndRanked
    simp only [List.partition_eq_filter_filter]
    refine (List.mergeSort_perm _ _).trans ?_
    rw [List.filter_congr fun x _ => hcond x]
  have hrank : (splitChronologicalAndRanked entries recentWindowHours now).2.Perm
      (entries.filter fun e =>
        !decide ((now : ℝ) - (e.timestamp : ℝ) ≤ recentWindowHours * 3600000)) := by
    unfold splitChronologicalAndRanked
    simp only [List.partition_eq_filter_filter]
    refine (List.mergeSort_perm _ _).trans ?_
    rw [List.filter_congr fun x _ => ?_]
    simp only [Function.comp]
    rw [hcond x]
  refine ⟨hchron, hrank, ?_, ?_, ?_⟩
  · refine (hchron.append hrank).trans ?_
    exact List.filter_append_perm _ entries
  · unfold splitChronologicalAndRanked
    simp only [List.partition_eq_filter_filter]
    have h := @List.sorted_mergeSort ScoredEntry
      (fun a b : ScoredEntry => decide (a.timestamp ≤ b.timestamp))
      (fun a b c hab hbc => by
        simp only [decide_eq_true_eq] at *
        omega)
      (fun a b => by
        simp only [Bool.or_eq_true, decide_eq_true_eq]
        omega)
      (entries.filter fun e =>
        decide ((now : ℝ) - recentWindowHours * 3600000 ≤ (e.timestamp : ℝ)))
    exact h.imp fun hab => by simpa using hab
  · unfold splitChronologicalAndRanked
    simp only [List.partition_eq_filter_filter]
    have h := @List.sorted_mergeSort ScoredEntry
      (fun a b : ScoredEntry => decide (b.finalScore ≤ a.finalScore))
      (fun a b c hab hbc => by
        simp only [decide_eq_true_eq] at *
        linarith)
      (fun a b => by
        simp only [Bool.or_eq_true, decide_eq_true_eq]
        exact le_total b.finalScore a.finalScore)
      (entries.filter fun e =>
        !decide ((now : ℝ) - recentWindowHours * 3600000 ≤ (e.timestamp : ℝ)))
    exact h.imp fun hab => by simpa using hab

/-! ## C4 -- retrieval assembler: id-level dedup, stable descending sort -/

/-- Invariant of the scoring loops over a list of (entry, semantic-score)
pairs: the seen set covers the scored list's ids, those ids are pairwise
distinct, the seen set only grows and covers every processed entry, and
every scored entry is either inherited from the initial state or comes from
a processed pair whose id was fresh. -/
lemma scorePairsFold_inv (params : RankingParams) :
    ∀ (pairs : List (ContextEntry × ℝ)) (s0 : Finset String)
      (l0 : List ScoredEntry),
      (∀ x ∈ l0, x.id ∈ s0) → (l0.map (·.id)).Nodup →
      (∀ x ∈ (pairs.foldl
          (fun acc p => scoreStep params (fun _ => p.2) acc p.1) (s0, l0)).2,
        x.id ∈ (pairs.foldl
          (fun acc p => scoreStep params (fun _ => p.2) acc p.1) (s0, l0)).1) ∧
      ((pairs.foldl
          (fun acc p => scoreStep params (fun _ => p.2) acc p.1) (s0, l0)).2.map
          (·.id)).Nodup ∧
      (∀ i, i ∈ s0 → i ∈ (pairs.foldl
          (fun acc p => scoreStep params (fun _ => p.2) acc p.1) (s0, l0)).1) ∧
      (∀ p ∈ pairs, p.1.id ∈ (pairs.foldl
          (fun acc p => scoreStep params (fun _ => p.2) acc p.1) (s0, l0)).1) ∧
      (∀ x ∈ (pairs.foldl
          (fun acc p => scoreStep params (fun _ => p.2) acc p.1) (s0, l0)).2,
        x ∈ l0 ∨ ((∃ p ∈ pairs, x =
          ⟨p.1, computeScore p.1 p.2 params⟩) ∧ x.id ∉ s0))
  | [], s0, l0, hids, hnd => by
    refine ⟨hids, hnd, fun i hi => hi, by simp, fun x hx => Or.inl hx⟩
  | (e, v) :: rest, s0, l0, hids, hnd => by
    simp only [List.foldl_cons]
    by_cases hmem : e.id ∈ s0
    · rw [show scoreStep params (fun _ => v) (s0, l0) e = (s0, l0) from by
        rw [scoreStep, if_pos hmem]]
      obtain ⟨h1, h2, h3, h4, h5⟩ := scorePairsFold_inv params rest s0 l0 hids hnd
      refine ⟨h1, h2, h3, ?_, ?_⟩
      · intro p hp
        rcases List.mem_cons.mp hp with rfl | hp'
        · exact h3 _ hmem
        · exact h4 p hp'
      · intro x hx
        rcases h5 x hx with h | ⟨⟨p, hp, hxp⟩, hid⟩
        · exact Or.inl h
        · exact Or.inr ⟨⟨p, List.mem_cons_of_mem _ hp, hxp⟩, hid⟩
    · rw [show scoreStep params (fun _ => v) (s0, l0) e =
          (insert e.id s0, l0 ++ [⟨e, computeScore e v params⟩]) from by
        rw [scoreStep, if_neg hmem]]
      have hids' : ∀ x ∈ l0 ++ [(⟨e, computeScore e v params⟩ : ScoredEntry)],
          x.id ∈ insert e.id s0 := by
        intro x hx
        rcases List.mem_append.mp hx with h | h
        · exact Finset.mem_insert_of_mem (hids x h)
        · rw [List.mem_singleton] at h
          rw [h]
          exact Finset.mem_insert_self _ _
      have hnd' : ((l0 ++ [(⟨e, computeScore e v params⟩ : ScoredEntry)]).map
          (·.id)).Nodup := by
        rw [List.map_append, List.nodup_append]
        refine ⟨hnd, List.nodup_singleton _, ?_⟩
        intro i hi
        simp only [List.map_cons, List.map_nil, List.mem_singleton]
        intro hie
        obtain ⟨x, hx, hxi⟩ := List.mem_map.mp hi
        apply hmem
        rw [← hie, ← hxi]
        exact hids x hx
      obtain ⟨h1, h2, h3, h4, h5⟩ :=
        scorePairsFold_inv params rest (insert e.id s0)
          (l0 ++ [⟨e, computeScore e v params⟩]) hids' hnd'
      refine ⟨h1, h2, fun i hi => h3 i (Finset.mem_insert_of_mem hi), ?_, ?_⟩
      · intro p hp
        rcases List.mem_cons.mp hp with rfl | hp'
        · exact h3 _ (Finset.mem_insert_self _ _)
        · exact h4 p hp'
      · intro x hx
        rcases h5 x hx with h | ⟨⟨p, hp, hxp⟩, hid⟩
        · rcases List.mem_append.mp h with h' | h'
          · exact Or.inl h'
          · rw [List.mem_singleton] at h'
            refine Or.inr ⟨⟨(e, v), List.mem_cons_self _ _, h'⟩, ?_⟩
            rw [h']
            exact hmem
        · refine Or.inr ⟨⟨p, List.mem_cons_of_mem _ hp, hxp⟩, fun hs => hid
            (Finset.mem_insert_of_mem hs)⟩



/-- The scored list of `deduplicateAndRank` has pairwise-distinct ids, and
each of its entries is either a recency entry scored with semantic term `0`
or a semantic-search result whose id does not occur among the recency
entries' ids. -/
lemma scoredList_characterization (recent : List ContextEntry)
    (relevant : List ContextSearchResult) (params : RankingParams) :
    ((scoredList recent relevant params).map (·.id)).Nodup ∧
    ∀ x ∈ scoredList recent relevant params,
      (∃ e ∈ recent, x = ⟨e, computeScore e 0 params⟩) ∨
      ((∃ r ∈ relevant, x = ⟨r.entry, computeScore r.entry r.score params⟩) ∧
        x.id ∉ recent.map (·.id)) := by
  have e1 : recent.foldl (scoreStep params fun _ => 0) (∅, []) =
      (recent.map fun e => (e, (0:ℝ))).foldl
        (fun acc p => scoreStep params (fun _ => p.2) acc p.1) (∅, []) := by
    rw [List.foldl_map]
  have h1 := scorePairsFold_inv params (recent.map fun e => (e, (0:ℝ))) ∅ []
    (by simp) (by simp)
  rw [← e1] at h1
  obtain ⟨h1ids, h1nd, -, h1cov, h1prov⟩ := h1
  have e2 : (relevant.foldl
      (fun acc r => scoreStep params (fun _ => r.score) acc r.entry)
      (recent.foldl (scoreStep params fun _ => 0) (∅, []))) =
      (relevant.map fun r => (r.entry, r.score)).foldl
        (fun acc p => scoreStep params (fun _ => p.2) acc p.1)
        (recent.foldl (scoreStep params fun _ => 0) (∅, [])) := by
    rw [List.foldl_map]
  have h2 := scorePairsFold_inv params (relevant.map fun r => (r.entry, r.score))
    (recent.foldl (scoreStep params fun _ => 0) (∅, [])).1
    (recent.foldl (scoreStep params fun _ => 0) (∅, [])).2 h1ids h1nd
  rw [← e2] at h2
  obtain ⟨-, h2nd, -, -, h2prov⟩ := h2
  constructor
  · exact h2nd
  · intro x hx
    have hx' := h2prov x hx
    rcases hx' with hx1 | ⟨⟨p, hp, hxp⟩, hid⟩
    · rcases h1prov x hx1 with h | ⟨⟨p, hp, hxp⟩, -⟩
      · simp at h
      · obtain ⟨e, he, hpe⟩ := List.mem_map.mp hp
        refine Or.inl ⟨e, he, ?_⟩
        rw [hxp, ← hpe]
    · obtain ⟨r, hr, hpr⟩ := List.mem_map.mp hp
      refine Or.inr ⟨⟨r, hr, by rw [hxp, ← hpr]⟩, ?_⟩
      intro hxid
      apply hid
      obtain ⟨i, hi, hix⟩ := List.mem_map.mp hxid
      have : i.id ∈ (recent.foldl (scoreStep params fun _ => 0) (∅, [])).1 :=
        h1cov (i, (0:ℝ)) (List.mem_map_of_mem _ hi)
      rw [← hix]
      exact this

/-- Transitivity of the descending-score comparator. -/
lemma sortByScoreDesc_trans : ∀ (a b c : ScoredEntry),
    (decide (b.finalScore ≤ a.finalScore)) →
    (decide (c.finalScore ≤ b.finalScore)) →
    (decide (c.finalScore ≤ a.finalScore)) := by
  intro a b c hab hbc
  simp only [decide_eq_true_eq] at *
  linarith

/-- Totality of the descending-score comparator. -/
lemma sortByScoreDesc_total : ∀ (a b : ScoredEntry),
    (decide (b.finalScore ≤ a.finalScore) ||
     decide (a.finalScore ≤ b.finalScore)) := by
  intro a b
  simp only [Bool.or_eq_true, decide_eq_true_eq]
  exact le_total _ _

/-- Stability of the descending sort: the entries of any fixed score appear
in the output in exactly their input order. -/
lemma sortByScoreDesc_stable (l : List ScoredEntry) (s : ℝ) :
    (sortByScoreDesc l).filter (fun x => decide (x.finalScore = s)) =
      l.filter (fun x => decide (x.finalScore = s)) := by
  have hpw : (l.filter (fun x => decide (x.finalScore = s))).Pairwise
      (fun a b => decide (b.finalScore ≤ a.finalScore)) := by
    apply List.pairwise_of_forall_mem_list
    intro a ha b hb
    have ha' : a.finalScore = s := by
      simpa using (List.mem_filter.mp ha).2
    have hb' : b.finalScore = s := by
      simpa using (List.mem_filter.mp hb).2
    simp [ha', hb']
  have hsub : (l.filter (fun x => decide (x.finalScore = s))).Sublist
      (List.mergeSort l (fun a b => decide (b.finalScore ≤ a.finalScore))) :=
    List.sublist_mergeSort sortByScoreDesc_trans sortByScoreDesc_total hpw
      (List.filter_sublist l)
  have heq : (l.filter (fun x => decide (x.finalScore = s))).filter
      (fun x => decide (x.finalScore = s)) =
      l.filter (fun x => decide (x.finalScore = s)) :=
    List.filter_eq_self.mpr fun a ha => (List.mem_filter.mp ha).2
  have h2 := hsub.filter (fun x => decide (x.finalScore = s))
  rw [heq] at h2
  have hperm : List.Perm ((List.mergeSort l
      (fun a b => decide (b.finalScore ≤ a.finalScore))).filter
      (fun x => decide (x.finalScore = s)))
      (l.filter (fun x => decide (x.finalScore = s))) :=
    (List.mergeSort_perm l _).filter _
  exact (h2.eq_of_length hperm.length_eq.symm).symm



/-- C4: the output of `deduplicateAndRank` contains at most one entry per
distinct id; every output entry is either a recency-sourced entry scored
with semantic term `0` or a semantic-sourced entry whose id does not occur
in the recency list (so when an id occurs in both lists the recency copy
wins); and the descending sort is stable: each score class keeps the
scored-list order, in which all recency entries precede all semantic
entries. -/
theorem deduplicateAndRank_id_unique_and_stable (recent : List ContextEntry)
    (relevant : List ContextSearchResult) (params : RankingParams) :
    ((deduplicateAndRank recent relevant params).map (·.id)).Nodup ∧
    (∀ x ∈ deduplicateAndRank recent relevant params,
      (∃ e ∈ recent, x = ⟨e, computeScore e 0 params⟩) ∨
      ((∃ r ∈ relevant, x = ⟨r.entry, computeScore r.entry r.score params⟩) ∧
        x.id ∉ recent.map (·.id))) ∧
    (sortByScoreDesc (scoredList recent relevant params)).Pairwise
      (fun a b => b.finalScore ≤ a.finalScore) ∧
    (∀ s : ℝ, (sortByScoreDesc (scoredList recent relevant params)).filter
        (fun x => decide (x.finalScore = s)) =
      (scoredList recent relevant params).filter
        (fun x => decide (x.finalScore = s))) := by
  obtain ⟨hnd, hprov⟩ := scoredList_characterization recent relevant params
  obtain ⟨t, ht, hts⟩ := contentDedupGo_append 3600000 0.55
    (sortByScoreDesc (scoredList recent relevant params)) [] []
  have hdsub : (contentDedup
      (sortByScoreDesc (scoredList recent relevant params))).Sublist
      (sortByScoreDesc (scoredList recent relevant params)) := by
    rw [contentDedup, ht]
    simpa using hts
  have houtsub : (deduplicateAndRank recent relevant params).Sublist
      (sortByScoreDesc (scoredList recent relevant params)) := by
    rw [deduplicateAndRank]
    exact (List.take_sublist _ _).trans hdsub
  have hperm : List.Perm (sortByScoreDesc (scoredList recent relevant params))
      (scoredList recent relevant params) := List.mergeSort_perm _ _
  refine ⟨?_, ?_, ?_, fun s => sortByScoreDesc_stable _ s⟩
  · have hndSorted : ((sortByScoreDesc
        (scoredList recent relevant params)).map (·.id)).Nodup :=
      ((hperm.map (·.id)).nodup_iff).mpr hnd
    exact hndSorted.sublist (houtsub.map (·.id))
  · intro x hx
    have hx1 : x ∈ sortByScoreDesc (scoredList recent relevant params) :=
      houtsub.mem hx
    exact hprov x (hperm.mem_iff.mp hx1)
  · have h := List.sorted_mergeSort sortByScoreDesc_trans sortByScoreDesc_total
      (scoredList recent relevant params)
    exact h.imp fun hab => by simpa using hab

/-! ## C3 / C9 -- classifier response parser -/

/-- Dropping leading whitespace fixes a list with a non-whitespace head,
also after appending. -/
lemma dropWhile_eq_self_append (xs ys : List Char)
    (h : xs.dropWhile isWs = xs) (hne : xs ≠ []) :
    (xs ++ ys).dropWhile isWs = xs ++ ys := by
  rw [List.dropWhile_append, h, if_neg (fun hc => hne (List.isEmpty_iff.mp hc))]

/-- A list is `jsTrim`-fixed iff dropping leading whitespace from it and
from its reverse changes nothing. -/
lemma jsTrim_eq_self_iff (l : List Char) :
    jsTrim l = l ↔ l.dropWhile isWs = l ∧ l.reverse.dropWhile isWs = l.reverse := by
  constructor
  · intro h
    have h1 : l.dropWhile isWs = l := by
      have hs : (l.dropWhile isWs).length ≤ l.length :=
        (List.dropWhile_sublist isWs).length_le
      have hs2 : ((l.dropWhile isWs).reverse.dropWhile isWs).length ≤
          (l.dropWhile isWs).length := by
        have hsub : ((l.dropWhile isWs).reverse.dropWhile isWs).Sublist
            ((l.dropWhile isWs).reverse) := List.dropWhile_sublist isWs
        have := hsub.length_le
        simpa using this
      have hlen : ((l.dropWhile isWs).reverse.dropWhile isWs).reverse.length =
          l.length := by rw [jsTrim] at h; rw [h]
      simp at hlen
      have : (l.dropWhile isWs).length = l.length := by omega
      have hsub : (l.dropWhile isWs).Sublist l := List.dropWhile_sublist isWs
      exact hsub.eq_of_length this
    refine ⟨h1, ?_⟩
    rw [jsTrim, h1] at h
    have := congrArg List.reverse h
    simpa using this
  · rintro ⟨h1, h2⟩
    rw [jsTrim, h1, h2]
    simp

/-- Appending a trimmed non-empty tail to a prefix with a non-whitespace
head yields a `jsTrim`-fixed list. -/
lemma jsTrim_eq_self_append (p b : List Char)
    (hp : p.dropWhile isWs = p) (hpne : p ≠ [])
    (hb : jsTrim b = b) (hbne : b ≠ []) :
    jsTrim (p ++ b) = p ++ b := by
  obtain ⟨hb1, hb2⟩ := (jsTrim_eq_self_iff b).mp hb
  rw [jsTrim_eq_self_iff]
  constructor
  · exact dropWhile_eq_self_append p b hp hpne
  · rw [List.reverse_append]
    exact dropWhile_eq_self_append b.reverse p.reverse hb2 (by simpa using hbne)

/-- Trimming after prepending one space gives back the trimmed tail. -/
lemma jsTrim_ws_cons (b : List Char) (hb : jsTrim b = b) :
    jsTrim (' ' :: b) = b := by
  obtain ⟨hb1, hb2⟩ := (jsTrim_eq_self_iff b).mp hb
  rw [jsTrim, List.dropWhile_cons, if_pos (by decide), hb1, hb2]
  simp


/-- Evaluation of the case-insensitive prefix matcher on literal heads. -/
lemma stripPrefixCI_update (r : List Char) :
    stripPrefixCI "UPDATE".data ('U' :: 'P' :: 'D' :: 'A' :: 'T' :: 'E' :: r) =
      some r := rfl

lemma stripPrefixCI_update_new (r : List Char) :
    stripPrefixCI "UPDATE".data ('N' :: r) = none := rfl

lemma stripPrefixCI_skip_u (r : List Char) :
    stripPrefixCI "SKIP".data ('U' :: r) = none := rfl

/-- A digit run followed by a closing bracket splits exactly at the
bracket. -/
lemma takeWhile_digits_append (ds X : List Char)
    (hdig : ∀ c ∈ ds, c.isDigit = true) :
    (ds ++ ']' :: X).takeWhile Char.isDigit = ds ∧
    (ds ++ ']' :: X).dropWhile Char.isDigit = ']' :: X := by
  induction ds with
  | nil =>
    have h : Char.isDigit ']' = false := by decide
    simp [List.takeWhile_cons, List.dropWhile_cons, h]
  | cons d tl ih =>
    have hd : d.isDigit = true := hdig d (List.mem_cons_self _ _)
    have ih' := ih fun c hc => hdig c (List.mem_cons_of_mem _ hc)
    simp [List.takeWhile_cons, List.dropWhile_cons, hd, ih'.1, ih'.2]

/-- Evaluation of the UPDATE regex matcher on a well-formed response. -/
lemma matchUpdate_constructed (ds body : List Char)
    (hds : ds ≠ []) (hdig : ∀ c ∈ ds, c.isDigit = true)
    (hb : jsTrim body = body) :
    matchUpdate ("UPDATE [".data ++ ds ++ "]: ".data ++ body) =
      some (digitsToNat ds, body) := by
  have hshape : "UPDATE [".data ++ ds ++ "]: ".data ++ body =
      'U' :: 'P' :: 'D' :: 'A' :: 'T' :: 'E' :: ' ' :: '[' ::
        (ds ++ ']' :: ':' :: ' ' :: body) := by
    simp [String.data]
  rw [matchUpdate, hshape, stripPrefixCI_update]
  dsimp only
  have hdw : (' ' :: '[' :: (ds ++ ']' :: ':' :: ' ' :: body)).dropWhile isWs =
      '[' :: (ds ++ ']' :: ':' :: ' ' :: body) := by
    have h1 : isWs ' ' = true := by decide
    have h2 : isWs '[' = false := by decide
    simp [List.dropWhile_cons, h1, h2]
  rw [hdw]
  obtain ⟨htw, hdw2⟩ := takeWhile_digits_append ds (':' :: ' ' :: body) hdig
  simp only [htw, hdw2]
  rw [if_neg (by simpa using hds)]
  have hdw3 : (':' :: ' ' :: body).dropWhile isWs = ':' :: ' ' :: body := by
    have h : isWs ':' = false := by decide
    simp [List.dropWhile_cons, h]
  rw [hdw3]
  show (if (' ' :: body) = [] then none
    else some (digitsToNat ds, jsTrim (' ' :: body))) =
    some (digitsToNat ds, body)
  rw [if_neg (by simp)]
  rw [jsTrim_ws_cons body hb]

/-- Evaluation of the NEW regex matcher on a well-formed response. -/
lemma matchNew_constructed (body : List Char) (hb : jsTrim body = body) :
    matchNew ("NEW: ".data ++ body) = some body := by
  have hshape : "NEW: ".data ++ body = 'N' :: 'E' :: 'W' :: ':' :: ' ' :: body := by
    simp [String.data]
  rw [matchNew, hshape]
  rw [show stripPrefixCI "NEW".data
      ('N' :: 'E' :: 'W' :: ':' :: ' ' :: body) = some (':' :: ' ' :: body)
    from rfl]
  dsimp only
  have hdw : (':' :: ' ' :: body).dropWhile isWs = ':' :: ' ' :: body := by
    have h : isWs ':' = false := by decide
    simp [List.dropWhile_cons, h]
  rw [hdw]
  show (if (' ' :: body) = [] then none else some (jsTrim (' ' :: body))) =
    some body
  rw [if_neg (by simp)]
  rw [jsTrim_ws_cons body hb]


/-- Evaluation facts for the literal matchers on specific heads. -/
lemma matchSkip_skip_lit : matchSkip "SKIP".data = true := rfl

lemma matchSkip_u (r : List Char) : matchSkip ('U' :: r) = false := rfl

lemma matchSkip_n (r : List Char) : matchSkip ('N' :: r) = false := rfl

lemma matchUpdate_n (r : List Char) : matchUpdate ('N' :: r) = none := rfl

/-- Branch of `parseDedupResponse`: a trimmed `SKIP` response yields the
skip action with no stored mutation. -/
lemma parse_skip_case (text : List Char) (entries : List ContextEntry)
    (h : jsTrim text = "SKIP".data) :
    parseDedupResponse text entries = ⟨.skip, [], none⟩ := by
  simp only [parseDedupResponse, h]
  rfl

/-- A well-formed UPDATE response is already trimmed. -/
lemma update_shape_trim (ds body : List Char)
    (hb : jsTrim body = body) (hbne : body ≠ []) :
    jsTrim ("UPDATE [".data ++ ds ++ "]: ".data ++ body) =
      "UPDATE [".data ++ ds ++ "]: ".data ++ body := by
  have hassoc : "UPDATE [".data ++ ds ++ "]: ".data ++ body =
      ("UPDATE [".data ++ ds ++ "]: ".data) ++ body := by simp
  rw [hassoc]
  apply jsTrim_eq_self_append _ _ _ (by simp) hb hbne
  have hshape2 : "UPDATE [".data ++ ds ++ "]: ".data =
      'U' :: ('P' :: 'D' :: 'A' :: 'T' :: 'E' :: ' ' :: '[' ::
        (ds ++ ']' :: ':' :: ' ' :: [])) := by simp [String.data]
  rw [hshape2, List.dropWhile_cons, if_neg (by decide)]

/-- Character shape of a well-formed UPDATE response. -/
lemma update_shape_head (ds body : List Char) :
    "UPDATE [".data ++ ds ++ "]: ".data ++ body =
      'U' :: ('P' :: 'D' :: 'A' :: 'T' :: 'E' :: ' ' :: '[' ::
        (ds ++ ']' :: ':' :: ' ' :: body)) := by
  simp [String.data]

/-- Branch of `parseDedupResponse`: an UPDATE response with an in-range
index and a long-enough summary yields the update action targeting the
n-th reference entry. -/
lemma parse_update_in_range (ds body : List Char) (entries : List ContextEntry)
    (hds : ds ≠ []) (hdig : ∀ c ∈ ds, c.isDigit = true)
    (hb : jsTrim body = body) (hbne : body ≠ [])
    (h1 : 1 ≤ digitsToNat ds) (h2 : digitsToNat ds ≤ entries.length)
    (hlen : 10 ≤ body.length) :
    parseDedupResponse ("UPDATE [".data ++ ds ++ "]: ".data ++ body) entries =
      ⟨.update, body, (entries.get? (digitsToNat ds - 1)).map (·.id)⟩ := by
  have htrim := update_shape_trim ds body hb hbne
  simp only [parseDedupResponse, htrim]
  rw [show matchSkip ("UPDATE [".data ++ ds ++ "]: ".data ++ body) = false from by
    rw [update_shape_head]; exact matchSkip_u _]
  rw [if_neg (by simp)]
  rw [matchUpdate_constructed ds body hds hdig hb]
  show (if 0 ≤ (digitsToNat ds : ℤ) - 1 ∧
      (digitsToNat ds : ℤ) - 1 < (entries.length : ℤ) ∧
      10 ≤ body.length then _ else _) = _
  rw [if_pos ⟨by omega, by omega, hlen⟩]
  have : ((digitsToNat ds : ℤ) - 1).toNat = digitsToNat ds - 1 := by omega
  rw [this]

/-- Branch of `parseDedupResponse`: an UPDATE response with an out-of-range
index or a too-short summary degrades to the new action with the extracted
text. -/
lemma parse_update_degrade (ds body : List Char) (entries : List ContextEntry)
    (hds : ds ≠ []) (hdig : ∀ c ∈ ds, c.isDigit = true)
    (hb : jsTrim body = body) (hbne : body ≠ [])
    (hdeg : digitsToNat ds = 0 ∨ entries.length < digitsToNat ds ∨
      body.length < 10) :
    parseDedupResponse ("UPDATE [".data ++ ds ++ "]: ".data ++ body) entries =
      ⟨.new, body, none⟩ := by
  have htrim := update_shape_trim ds body hb hbne
  simp only [parseDedupResponse, htrim]
  rw [show matchSkip ("UPDATE [".data ++ ds ++ "]: ".data ++ body) = false from by
    rw [update_shape_head]; exact matchSkip_u _]
  rw [if_neg (by simp)]
  rw [matchUpdate_constructed ds body hds hdig hb]
  show (if 0 ≤ (digitsToNat ds : ℤ) - 1 ∧
      (digitsToNat ds : ℤ) - 1 < (entries.length : ℤ) ∧
      10 ≤ body.length then _ else _) = _
  rw [if_neg (by omega)]
  rw [if_neg hbne]

/-- Character shape of a well-formed NEW response. -/
lemma new_shape_head (body : List Char) :
    "NEW: ".data ++ body = 'N' :: ('E' :: 'W' :: ':' :: ' ' :: body) := by
  simp [String.data]

/-- Branch of `parseDedupResponse`: a NEW response yields the new action
with the extracted text. -/
lemma parse_new_case (body : List Char) (entries : List ContextEntry)
    (hb : jsTrim body = body) (hbne : body ≠ []) :
    parseDedupResponse ("NEW: ".data ++ body) entries = ⟨.new, body, none⟩ := by
  have htrim : jsTrim ("NEW: ".data ++ body) = "NEW: ".data ++ body := by
    apply jsTrim_eq_self_append _ _ _ (by simp) hb hbne
    rw [show "NEW: ".data = 'N' :: ('E' :: 'W' :: ':' :: ' ' :: []) from by
      simp [String.data]]
    rw [List.dropWhile_cons, if_neg (by decide)]
  simp only [parseDedupResponse, htrim]
  rw [show matchSkip ("NEW: ".data ++ body) = false from by
    rw [new_shape_head]; exact matchSkip_n _]
  rw [if_neg (by simp)]
  rw [show matchUpdate ("NEW: ".data ++ body) = none from by
    rw [new_shape_head]; exact matchUpdate_n _]
  rw [matchNew_constructed body hb]

/-- Branch of `parseDedupResponse`: an unrecognized response yields the new
action carrying the full trimmed response. -/
lemma parse_fallthrough (text : List Char) (entries : List ContextEntry)
    (h1 : matchSkip (jsTrim text) = false)
    (h2 : matchUpdate (jsTrim text) = none)
    (h3 : matchNew (jsTrim text) = none) :
    parseDedupResponse text entries = ⟨.new, jsTrim text, none⟩ := by
  simp only [parseDedupResponse, h1, h2, h3]
  rw [if_neg (by simp)]


/-- C9: `parseDedupResponse` is total by construction, and whenever it
returns the update action, the returned `replaceId` is the id of one of
the supplied reference entries and the returned summary has at least 10
characters. -/
theorem parseDedupResponse_update_invariant (text : List Char)
    (entries : List ContextEntry)
    (h : (parseDedupResponse text entries).action = .update) :
    (∃ i, ∃ hi : i < entries.length,
      (parseDedupResponse text entries).replaceId =
        some ((entries.get ⟨i, hi⟩).id)) ∧
    10 ≤ (parseDedupResponse text entries).summary.length := by
  by_cases hs : matchSkip (jsTrim text) = true
  · have heq : parseDedupResponse text entries = ⟨.skip, [], none⟩ := by
      simp only [parseDedupResponse]
      rw [if_pos hs]
    rw [heq] at h
    simp at h
  · cases hm : matchUpdate (jsTrim text) with
    | some p =>
      obtain ⟨n, summary⟩ := p
      by_cases hc : 0 ≤ (n:ℤ) - 1 ∧ (n:ℤ) - 1 < (entries.length : ℤ) ∧
          10 ≤ summary.length
      · have heq : parseDedupResponse text entries =
            ⟨.update, summary, (entries.get? ((n:ℤ)-1).toNat).map (·.id)⟩ := by
          simp only [parseDedupResponse]
          rw [if_neg hs, hm]
          dsimp only
          rw [if_pos hc]
        rw [heq]
        obtain ⟨h1, h2, h3⟩ := hc
        have hlt : ((n:ℤ)-1).toNat < entries.length := by omega
        refine ⟨⟨((n:ℤ)-1).toNat, hlt, ?_⟩, h3⟩
        rw [List.get?_eq_get hlt, Option.map_some']
      · have heq : parseDedupResponse text entries =
            ⟨.new, if summary = [] then jsTrim text else summary, none⟩ := by
          simp only [parseDedupResponse]
          rw [if_neg hs, hm]
          dsimp only
          rw [if_neg hc]
        rw [heq] at h
        simp at h
    | none =>
      cases hn : matchNew (jsTrim text) with
      | some snew =>
        have heq : parseDedupResponse text entries = ⟨.new, snew, none⟩ := by
          simp only [parseDedupResponse]
          rw [if_neg hs, hm, hn]
        rw [heq] at h
        simp at h
      | none =>
        have heq : parseDedupResponse text entries =
            ⟨.new, jsTrim text, none⟩ := by
          simp only [parseDedupResponse]
          rw [if_neg hs, hm, hn]
        rw [heq] at h
        simp at h

/-- C9, witness: the invariant applied to a concrete update response
against a one-entry reference list. -/
theorem parseDedupResponse_update_invariant_witness :
    (parseDedupResponse "UPDATE [1]: 0123456789".data [mkEntry "a"]).action =
      .update ∧
    ((∃ i, ∃ hi : i < ([mkEntry "a"] : List ContextEntry).length,
      (parseDedupResponse "UPDATE [1]: 0123456789".data [mkEntry "a"]).replaceId =
        some ((([mkEntry "a"] : List ContextEntry).get ⟨i, hi⟩).id)) ∧
    10 ≤ (parseDedupResponse "UPDATE [1]: 0123456789".data
      [mkEntry "a"]).summary.length) :=
  ⟨by decide, parseDedupResponse_update_invariant _ _ (by decide)⟩


/-- C3: classification of every classifier response shape — trimmed SKIP
yields skip; a well-formed `UPDATE [n]: text` with `1 ≤ n ≤ length` and a
summary of at least 10 characters yields update targeting the n-th
reference entry; an out-of-range index or too-short text degrades to new
with the extracted text; `NEW: text` yields new with the extracted text;
and any other shape yields new with the full trimmed response — no
response is ever dropped (the parser is a total function). -/
theorem parseDedupResponse_classification (entries : List ContextEntry) :
    (∀ text : List Char, jsTrim text = "SKIP".data →
      parseDedupResponse text entries = ⟨.skip, [], none⟩) ∧
    (∀ ds body : List Char, ds ≠ [] → (∀ c ∈ ds, c.isDigit = true) →
      jsTrim body = body → body ≠ [] →
      1 ≤ digitsToNat ds → digitsToNat ds ≤ entries.length →
      10 ≤ body.length →
      parseDedupResponse ("UPDATE [".data ++ ds ++ "]: ".data ++ body) entries =
        ⟨.update, body, (entries.get? (digitsToNat ds - 1)).map (·.id)⟩) ∧
    (∀ ds body : List Char, ds ≠ [] → (∀ c ∈ ds, c.isDigit = true) →
      jsTrim body = body → body ≠ [] →
      (digitsToNat ds = 0 ∨ entries.length < digitsToNat ds ∨
        body.length < 10) →
      parseDedupResponse ("UPDATE [".data ++ ds ++ "]: ".data ++ body) entries =
        ⟨.new, body, none⟩) ∧
    (∀ body : List Char, jsTrim body = body → body ≠ [] →
      parseDedupResponse ("NEW: ".data ++ body) entries = ⟨.new, body, none⟩) ∧
    (∀ text : List Char, matchSkip (jsTrim text) = false →
      matchUpdate (jsTrim text) = none → matchNew (jsTrim text) = none →
      parseDedupResponse text entries = ⟨.new, jsTrim text, none⟩) :=
  ⟨fun text h => parse_skip_case text entries h,
   fun ds body h1 h2 h3 h4 h5 h6 h7 =>
     parse_update_in_range ds body entries h1 h2 h3 h4 h5 h6 h7,
   fun ds body h1 h2 h3 h4 h5 =>
     parse_update_degrade ds body entries h1 h2 h3 h4 h5,
   fun body h1 h2 => parse_new_case body entries h1 h2,
   fun text h1 h2 h3 => parse_fallthrough text entries h1 h2 h3⟩

/-- C3, witness: the classification applied to the four response shapes of
the specification against a three-entry reference list. -/
theorem parseDedupResponse_classification_witness :
    parseDedupResponse "  SKIP ".data
      [mkEntry "r1", mkEntry "r2", mkEntry "r3"] = ⟨.skip, [], none⟩ ∧
    parseDedupResponse "UPDATE [2]: merged text".data
      [mkEntry "r1", mkEntry "r2", mkEntry "r3"] =
      ⟨.update, "merged text".data, some "r2"⟩ ∧
    parseDedupResponse "UPDATE [9]: text".data
      [mkEntry "r1", mkEntry "r2", mkEntry "r3"] = ⟨.new, "text".data, none⟩ ∧
    parseDedupResponse "banana".data
      [mkEntry "r1", mkEntry "r2", mkEntry "r3"] =
      ⟨.new, "banana".data, none⟩ := by
  refine ⟨?_, ?_, ?_, ?_⟩
  · exact (parseDedupResponse_classification _).1 "  SKIP ".data (by decide)
  · exact (parseDedupResponse_classification _).2.1 ['2'] "merged text".data
      (by decide) (by decide) (by decide) (by decide) (by decide) (by decide)
      (by decide)
  · exact (parseDedupResponse_classification _).2.2.1 ['9'] "text".data
      (by decide) (by decide) (by decide) (by decide) (by decide)
  · exact (parseDedupResponse_classification _).2.2.2.2 "banana".data
      (by decide) (by decide) (by decide)

/-! ## C7 / C8 -- batch consolidator: greedy clustering and re-clustering -/

/-- Characterization of the inner absorption loop on fresh ids: the group
gains exactly the not-yet-used entries similar to the seed, in input order,
and the used set gains exactly their ids. -/
lemma absorbFold_characterization (vecSim : List ℝ → List ℝ → ℝ) (th : ℝ)
    (a : ContextEntry) :
    ∀ (rest : List ContextEntry) (g0 : List ContextEntry) (u0 : Finset String),
      (rest.map (·.id)).Nodup →
      (absorbFold vecSim th a rest (g0, u0)).1 =
        g0 ++ rest.filter (fun b => !decide (b.id ∈ u0) &&
          decide (th ≤ vecSim a.vector b.vector)) ∧
      ∀ i : String, i ∈ (absorbFold vecSim th a rest (g0, u0)).2 ↔
        i ∈ u0 ∨ i ∈ (rest.filter (fun b => !decide (b.id ∈ u0) &&
          decide (th ≤ vecSim a.vector b.vector))).map (·.id)
  | [], g0, u0, _ => by simp [absorbFold]
  | b :: rest, g0, u0, hnd => by
    have hndr : (rest.map (·.id)).Nodup := by
      simp only [List.map_cons, List.nodup_cons] at hnd
      exact hnd.2
    have hbid : b.id ∉ rest.map (·.id) := by
      simp only [List.map_cons, List.nodup_cons] at hnd
      exact hnd.1
    simp only [absorbFold, List.foldl_cons]
    by_cases hb : b.id ∈ u0
    · rw [if_pos hb]
      obtain ⟨h1, h2⟩ := absorbFold_characterization vecSim th a rest g0 u0 hndr
      rw [show rest.foldl (fun acc b => if b.id ∈ acc.2 then acc
          else if th ≤ vecSim a.vector b.vector then
            (acc.1 ++ [b], insert b.id acc.2) else acc) (g0, u0) =
          absorbFold vecSim th a rest (g0, u0) from rfl]
      constructor
      · rw [h1, List.filter_cons]
        rw [show (!decide (b.id ∈ u0) && decide (th ≤ vecSim a.vector b.vector)) =
          false from by simp [hb]]
        simp
      · intro i
        rw [h2 i, List.filter_cons]
        rw [show (!decide (b.id ∈ u0) && decide (th ≤ vecSim a.vector b.vector)) =
          false from by simp [hb]]
        simp
    · rw [if_neg hb]
      by_cases hsim : th ≤ vecSim a.vector b.vector
      · rw [if_pos hsim]
        obtain ⟨h1, h2⟩ := absorbFold_characterization vecSim th a rest
          (g0 ++ [b]) (insert b.id u0) hndr
        rw [show rest.foldl (fun acc b => if b.id ∈ acc.2 then acc
            else if th ≤ vecSim a.vector b.vector then
              (acc.1 ++ [b], insert b.id acc.2) else acc)
            (g0 ++ [b], insert b.id u0) =
            absorbFold vecSim th a rest (g0 ++ [b], insert b.id u0) from rfl]
        have hfc : rest.filter (fun c => !decide (c.id ∈ insert b.id u0) &&
            decide (th ≤ vecSim a.vector c.vector)) =
            rest.filter (fun c => !decide (c.id ∈ u0) &&
            decide (th ≤ vecSim a.vector c.vector)) := by
          apply List.filter_congr
          intro c hc
          have : c.id ≠ b.id := by
            intro hcb
            exact hbid (hcb ▸ List.mem_map_of_mem (·.id) hc)
          simp [Finset.mem_insert, this]
        constructor
        · rw [h1, hfc, List.filter_cons]
          rw [show (!decide (b.id ∈ u0) &&
            decide (th ≤ vecSim a.vector b.vector)) = true from by
              simp [hb, hsim]]
          simp
        · intro i
          rw [h2 i, hfc, List.filter_cons]
          rw [show (!decide (b.id ∈ u0) &&
            decide (th ≤ vecSim a.vector b.vector)) = true from by
              simp [hb, hsim]]
          simp [Finset.mem_insert]
          tauto
      · rw [if_neg hsim]
        obtain ⟨h1, h2⟩ := absorbFold_characterization vecSim th a rest g0 u0 hndr
        rw [show rest.foldl (fun acc b => if b.id ∈ acc.2 then acc
            else if th ≤ vecSim a.vector b.vector then
              (acc.1 ++ [b], insert b.id acc.2) else acc) (g0, u0) =
            absorbFold vecSim th a rest (g0, u0) from rfl]
        constructor
        · rw [h1, List.filter_cons]
          rw [show (!decide (b.id ∈ u0) &&
            decide (th ≤ vecSim a.vector b.vector)) = false from by
              simp [hsim]]
          simp
        · intro i
          rw [h2 i, List.filter_cons]
          rw [show (!decide (b.id ∈ u0) &&
            decide (th ≤ vecSim a.vector b.vector)) = false from by
              simp [hsim]]
          simp



/-- Over a list with pairwise-distinct ids, an element's id occurs among a
filter's ids iff the element satisfies the filter. -/
lemma mem_id_map_filter_iff (l : List ContextEntry)
    (hnd : (l.map (·.id)).Nodup) (p : ContextEntry → Bool)
    (e : ContextEntry) (he : e ∈ l) :
    e.id ∈ (l.filter p).map (·.id) ↔ p e = true := by
  constructor
  · intro h
    obtain ⟨b, hb, hid⟩ := List.mem_map.mp h
    obtain ⟨hbl, hbp⟩ := List.mem_filter.mp hb
    have : b = e := List.inj_on_of_nodup_map hnd hbl he hid
    rw [← this]
    exact hbp
  · intro h
    exact List.mem_map_of_mem _ (List.mem_filter.mpr ⟨he, h⟩)

/-- The used-set implementation of `groupSimilar` computes the reference
recursion `groupSpec` on the not-yet-used entries (ids pairwise
distinct). -/
lemma groupSimilarAux_eq_groupSpec (vecSim : List ℝ → List ℝ → ℝ) (th : ℝ) :
    ∀ (l : List ContextEntry) (u : Finset String), (l.map (·.id)).Nodup →
      groupSimilarAux vecSim th l u =
        groupSpec vecSim th (l.filter fun e => !decide (e.id ∈ u))
  | [], u, _ => by simp [groupSimilarAux, groupSpec]
  | a :: rest, u, hnd => by
    have hndr : (rest.map (·.id)).Nodup := by
      simp only [List.map_cons, List.nodup_cons] at hnd
      exact hnd.2
    have haid : a.id ∉ rest.map (·.id) := by
      simp only [List.map_cons, List.nodup_cons] at hnd
      exact hnd.1
    simp only [groupSimilarAux]
    by_cases ha : a.id ∈ u
    · rw [if_pos ha]
      rw [groupSimilarAux_eq_groupSpec vecSim th rest u hndr]
      congr 1
      rw [List.filter_cons]
      rw [show (!decide (a.id ∈ u)) = false from by simp [ha]]
      simp
    · rw [if_neg ha]
      obtain ⟨hg, hu⟩ := absorbFold_characterization vecSim th a rest [a]
        (insert a.id u) hndr
      have hfc : rest.filter (fun c => !decide (c.id ∈ insert a.id u) &&
          decide (th ≤ vecSim a.vector c.vector)) =
          rest.filter (fun c => !decide (c.id ∈ u) &&
          decide (th ≤ vecSim a.vector c.vector)) := by
        apply List.filter_congr
        intro c hc
        have : c.id ≠ a.id := fun hca =>
          haid (hca ▸ List.mem_map_of_mem (·.id) hc)
        simp [Finset.mem_insert, this]
      rw [hfc] at hg hu
      set abs := rest.filter (fun c => !decide (c.id ∈ u) &&
        decide (th ≤ vecSim a.vector c.vector)) with habs
      -- the recursive call on rest with the enlarged used set
      have hrec := groupSimilarAux_eq_groupSpec vecSim th rest
        (absorbFold vecSim th a rest ([a], insert a.id u)).2 hndr
      have hfilter2 : rest.filter (fun e =>
          !decide (e.id ∈ (absorbFold vecSim th a rest ([a], insert a.id u)).2)) =
          (rest.filter fun e => !decide (e.id ∈ u)).filter
            (fun e => !decide (th ≤ vecSim a.vector e.vector)) := by
        rw [List.filter_filter]
        apply List.filter_congr
        intro c hc
        have hca : c.id ≠ a.id := fun hca =>
          haid (hca ▸ List.mem_map_of_mem (·.id) hc)
        have habsid : c.id ∈ abs.map (·.id) ↔ (!decide (c.id ∈ u) &&
            decide (th ≤ vecSim a.vector c.vector)) = true :=
          mem_id_map_filter_iff rest hndr _ c hc
        rw [show (!decide (c.id ∈
            (absorbFold vecSim th a rest ([a], insert a.id u)).2)) =
            !decide (c.id ∈ insert a.id u ∨ c.id ∈ abs.map (·.id)) from by
          simp only [hu c.id]]
        simp only [Finset.mem_insert, hca, false_or, habsid]
        by_cases h1 : c.id ∈ u <;> by_cases h2 : th ≤ vecSim a.vector c.vector <;>
          simp [h1, h2]
      rw [hrec, hfilter2]
      -- now the spec side
      have hspec : groupSpec vecSim th ((a :: rest).filter
          fun e => !decide (e.id ∈ u)) =
          (if abs.isEmpty then id else ((a :: abs) :: ·))
            (groupSpec vecSim th ((rest.filter fun e => !decide (e.id ∈ u)).filter
              (fun e => !decide (th ≤ vecSim a.vector e.vector)))) := by
        rw [List.filter_cons]
        rw [show (!decide (a.id ∈ u)) = true from by simp [ha]]
        simp only [if_pos rfl, if_true]
        rw [groupSpec.eq_def]
        dsimp only
        rw [List.filter_filter, List.filter_filter]
        have e1 : (rest.filter fun b => decide (th ≤ vecSim a.vector b.vector) &&
            !decide (b.id ∈ u)) = abs := by
          rw [habs]
          apply List.filter_congr
          intro c _
          cases h1 : decide (c.id ∈ u) <;>
            cases h2 : decide (th ≤ vecSim a.vector c.vector) <;> simp [h1, h2]
        have e2 : (rest.filter fun b => !decide (th ≤ vecSim a.vector b.vector) &&
            !decide (b.id ∈ u)) = (rest.filter fun e => !decide (e.id ∈ u)).filter
              (fun e => !decide (th ≤ vecSim a.vector e.vector)) := by
          rw [List.filter_filter]
        rw [e1, e2]
        by_cases he : abs.isEmpty
        · rw [if_pos he]
          simp [he]
        · rw [if_neg he]
          simp [he]
      rw [hspec, hg]
      by_cases he : abs.isEmpty
      · have : ([a] ++ abs).length = 1 := by
          have : abs = [] := List.isEmpty_iff.mp he
          simp [this]
        rw [if_neg (by omega), if_pos he]
        simp
      · have hlen : 1 < ([a] ++ abs).length := by
          have h0 : abs ≠ [] := fun hh => he (List.isEmpty_iff.mpr hh)
          have := List.length_pos.mpr h0
          simp only [List.length_append, List.length_cons, List.length_nil]
          omega
        rw [if_pos hlen, if_neg he]
        simp



/-- Every cluster kept by `groupSimilar` has at least two members
(singleton clusters are discarded). -/
lemma groupSimilarAux_size (vecSim : List ℝ → List ℝ → ℝ) (th : ℝ) :
    ∀ (l : List ContextEntry) (u : Finset String) (g : List ContextEntry),
      g ∈ groupSimilarAux vecSim th l u → 1 < g.length
  | [], _, g, hg => by simp [groupSimilarAux] at hg
  | a :: rest, u, g, hg => by
    simp only [groupSimilarAux] at hg
    by_cases ha : a.id ∈ u
    · rw [if_pos ha] at hg
      exact groupSimilarAux_size vecSim th rest u g hg
    · rw [if_neg ha] at hg
      by_cases hlen : 1 <
          (absorbFold vecSim th a rest ([a], insert a.id u)).1.length
      · rw [if_pos hlen] at hg
        rcases List.mem_cons.mp hg with rfl | hg'
        · exact hlen
        · exact groupSimilarAux_size vecSim th rest _ g hg'
      · rw [if_neg hlen] at hg
        exact groupSimilarAux_size vecSim th rest _ g hg

/-- Pairwise-dissimilar entries produce no clusters. -/
lemma groupSpec_eq_nil_of_pairwise (vecSim : List ℝ → List ℝ → ℝ) (th : ℝ) :
    ∀ l : List ContextEntry,
      List.Pairwise (fun x y => vecSim x.vector y.vector < th) l →
      groupSpec vecSim th l = []
  | [], _ => by simp [groupSpec]
  | a :: rest, h => by
    obtain ⟨ha, hrest⟩ := List.pairwise_cons.mp h
    rw [groupSpec.eq_def]
    dsimp only
    have habs : rest.filter (fun b => decide (th ≤ vecSim a.vector b.vector)) =
        [] := by
      rw [List.filter_eq_nil_iff]
      intro b hb
      simp [not_le.mpr (ha b hb)]
    have hrem : rest.filter (fun b => !decide (th ≤ vecSim a.vector b.vector)) =
        rest :=
      List.filter_eq_self.mpr fun b hb => by simp [not_le.mpr (ha b hb)]
    rw [habs, hrem]
    simp [groupSpec_eq_nil_of_pairwise vecSim th rest hrest]

/-- Every member of every cluster is one of the input entries. -/
lemma groupSpec_members_subset (vecSim : List ℝ → List ℝ → ℝ) (th : ℝ) :
    ∀ (n : ℕ) (l : List ContextEntry), l.length ≤ n →
      ∀ g ∈ groupSpec vecSim th l, ∀ x ∈ g, x ∈ l := by
  intro n
  induction n with
  | zero =>
    intro l hlen g hg x hx
    have : l = [] := List.length_eq_zero.mp (Nat.le_zero.mp hlen)
    rw [this] at hg
    simp [groupSpec] at hg
  | succ n ih =>
    intro l hlen g hg x hx
    cases l with
    | nil => simp [groupSpec] at hg
    | cons a rest =>
      rw [groupSpec.eq_def] at hg
      dsimp only at hg
      have hlr : (rest.filter
          (fun b => !decide (th ≤ vecSim a.vector b.vector))).length ≤ n := by
        have := List.length_filter_le
          (fun b => !decide (th ≤ vecSim a.vector b.vector)) rest
        simp only [List.length_cons] at hlen
        omega
      by_cases he : (rest.filter
          (fun b => decide (th ≤ vecSim a.vector b.vector))).isEmpty
      · rw [if_pos he] at hg
        have := ih _ hlr g hg x hx
        exact List.mem_cons_of_mem a (List.mem_of_mem_filter this)
      · rw [if_neg he] at hg
        rcases List.mem_cons.mp hg with rfl | hg'
        · rcases List.mem_cons.mp hx with rfl | hx'
          · exact List.mem_cons_self _ _
          · exact List.mem_cons_of_mem a (List.mem_of_mem_filter hx')
        · have := ih _ hlr g hg' x hx
          exact List.mem_cons_of_mem a (List.mem_of_mem_filter this)

/-- Membership in the member-id list of a grouping. -/
lemma mem_memberIds (groups : List (List ContextEntry)) (i : String) :
    i ∈ memberIds groups ↔ ∃ g ∈ groups, ∃ x ∈ g, x.id = i := by
  simp only [memberIds, List.mem_map, List.mem_flatten]
  constructor
  · rintro ⟨x, ⟨g, hg, hx⟩, hid⟩
    exact ⟨g, hg, x, hx, hid⟩
  · rintro ⟨g, hg, x, hx, hid⟩
    exact ⟨x, ⟨g, hg, hx⟩, hid⟩



/-- The entries left in no cluster by a run of the consolidator's grouping
are pairwise below the similarity threshold: the first of two surviving
entries seeded a cluster while the second was still unprocessed, so their
similarity was checked and found below the threshold. -/
lemma groupSpec_survivors_pairwise (vecSim : List ℝ → List ℝ → ℝ) (th : ℝ) :
    ∀ (n : ℕ) (l : List ContextEntry), l.length ≤ n → (l.map (·.id)).Nodup →
      List.Pairwise (fun x y => vecSim x.vector y.vector < th)
        (l.filter fun e => !decide (e.id ∈ memberIds (groupSpec vecSim th l))) := by
  intro n
  induction n with
  | zero =>
    intro l hlen _
    have : l = [] := List.length_eq_zero.mp (Nat.le_zero.mp hlen)
    rw [this]
    simp
  | succ n ih =>
    intro l hlen hnd
    cases l with
    | nil => simp
    | cons a rest =>
      have hndr : (rest.map (·.id)).Nodup := by
        simp only [List.map_cons, List.nodup_cons] at hnd
        exact hnd.2
      have haid : a.id ∉ rest.map (·.id) := by
        simp only [List.map_cons, List.nodup_cons] at hnd
        exact hnd.1
      have hlenr : rest.length ≤ n := by
        simp only [List.length_cons] at hlen
        omega
      rw [groupSpec.eq_def]
      dsimp only
      set abs := rest.filter (fun b => decide (th ≤ vecSim a.vector b.vector))
        with habs
      set rem := rest.filter (fun b => !decide (th ≤ vecSim a.vector b.vector))
        with hrem
      have hlenrem : rem.length ≤ n := by
        have h := List.length_filter_le
          (fun b => !decide (th ≤ vecSim a.vector b.vector)) rest
        rw [← hrem] at h
        omega
      have hndrem : (rem.map (·.id)).Nodup :=
        hndr.sublist ((List.filter_sublist rest).map (·.id))
      by_cases he : abs.isEmpty
      · -- no absorption: a survives, groupSpec recurses on rem = rest
        have habse : abs = [] := List.isEmpty_iff.mp he
        have hall : ∀ b ∈ rest, vecSim a.vector b.vector < th := by
          intro b hb
          by_contra hc
          have : b ∈ abs := List.mem_filter.mpr ⟨hb, by simpa using not_lt.mp hc⟩
          rw [habse] at this
          simp at this
        have hremr : rem = rest :=
          List.filter_eq_self.mpr fun b hb => by simp [not_le.mpr (hall b hb)]
        rw [if_pos he, hremr]
        have hanotin : a.id ∉ memberIds (groupSpec vecSim th rest) := by
          intro hmem
          obtain ⟨g, hg, x, hx, hid⟩ := (mem_memberIds _ _).mp hmem
          have hxl : x ∈ rest :=
            groupSpec_members_subset vecSim th n rest hlenr g hg x hx
          exact haid (hid ▸ List.mem_map_of_mem (·.id) hxl)
        rw [List.filter_cons]
        rw [show (!decide (a.id ∈ memberIds (groupSpec vecSim th rest))) = true
          from by simp [hanotin]]
        simp only [if_pos rfl, if_true]
        apply List.pairwise_cons.mpr
        refine ⟨?_, ih rest hlenr hndr⟩
        intro b hb
        exact hall b (List.mem_of_mem_filter hb)
      · -- absorption: a and abs are merged; survivors are those of rem
        rw [if_neg he]
        rw [List.filter_cons]
        have hain : a.id ∈ memberIds ((a :: abs) :: groupSpec vecSim th rem) :=
          (mem_memberIds _ _).mpr ⟨a :: abs, List.mem_cons_self _ _, a,
            List.mem_cons_self _ _, rfl⟩
        rw [show (!decide (a.id ∈
            memberIds ((a :: abs) :: groupSpec vecSim th rem))) = false
          from by simp [hain]]
        simp only [Bool.false_eq_true, if_false]
        have hfe : rest.filter (fun e => !decide (e.id ∈
            memberIds ((a :: abs) :: groupSpec vecSim th rem))) =
            rem.filter (fun e => !decide (e.id ∈
              memberIds (groupSpec vecSim th rem))) := by
          rw [hrem, List.filter_filter]
          apply List.filter_congr
          intro c hc
          have hca : c.id ≠ a.id := fun h =>
            haid (h ▸ List.mem_map_of_mem (·.id) hc)
          have hcabs : c.id ∈ abs.map (·.id) ↔
              (decide (th ≤ vecSim a.vector c.vector)) = true := by
            rw [habs]
            exact mem_id_map_filter_iff rest hndr _ c hc
          have hmem : c.id ∈ memberIds ((a :: abs) :: groupSpec vecSim th rem) ↔
              (c.id = a.id ∨ c.id ∈ abs.map (·.id)) ∨
                c.id ∈ memberIds (groupSpec vecSim th rem) := by
            simp only [memberIds, List.flatten_cons, List.map_append,
              List.mem_append, List.map_cons, List.mem_cons]
          rw [show (!decide (c.id ∈
              memberIds ((a :: abs) :: groupSpec vecSim th rem))) =
              !decide ((c.id = a.id ∨ c.id ∈ abs.map (·.id)) ∨
                c.id ∈ memberIds (groupSpec vecSim th rem)) from by
            simp only [hmem]]
          simp only [hca, false_or, hcabs]
          by_cases h1 : th ≤ vecSim a.vector c.vector <;>
            by_cases h2 : c.id ∈ memberIds (groupSpec vecSim th rem) <;>
              simp [h1, h2]
        rw [hfe]
        exact ih rem hlenrem hndrem



/-- On a store with pairwise-distinct ids, `groupSimilar` equals the
reference recursion. -/
lemma groupSimilar_eq_groupSpec (vecSim : List ℝ → List ℝ → ℝ) (th : ℝ)
    (l : List ContextEntry) (hnd : (l.map (·.id)).Nodup) :
    groupSimilar vecSim l th = groupSpec vecSim th l := by
  rw [groupSimilar, groupSimilarAux_eq_groupSpec vecSim th l ∅ hnd]
  congr 1
  apply List.filter_eq_self.mpr
  intro b _
  simp

/-- C8, amended.  Running the consolidator's clustering again on the store
left by a first `runCleanup` yields zero clusters, provided every merged
entry's re-embedded vector is below the threshold against every other
entry of the post-run store (both orders) and ids stay pairwise distinct;
the entries left unmerged by the first run are unconditionally pairwise
below the threshold.  Without the proviso on the merged entries' vectors
the claim fails — re-embedding is an external service with no similarity
guarantee; see the counterexample. -/
theorem afterCleanup_second_run_empty (vecSim : List ℝ → List ℝ → ℝ)
    (mkMerged : List ContextEntry → ContextEntry)
    (entries : List ContextEntry) (th : ℝ)
    (hnd : (entries.map (·.id)).Nodup)
    (hndPost : ((afterCleanup vecSim mkMerged entries th).map (·.id)).Nodup)
    (hmerged : ∀ g ∈ groupSimilar vecSim entries th,
      ∀ x ∈ afterCleanup vecSim mkMerged entries th,
        x.id ≠ (mkMerged g).id →
        vecSim (mkMerged g).vector x.vector < th ∧
        vecSim x.vector (mkMerged g).vector < th) :
    List.Pairwise (fun x y => vecSim x.vector y.vector < th)
      (entries.filter fun e =>
        e.id ∉ memberIds (groupSimilar vecSim entries th)) ∧
    groupSimilar vecSim (afterCleanup vecSim mkMerged entries th) th = [] := by
  have hsurvFilter : entries.filter (fun e =>
      e.id ∉ memberIds (groupSimilar vecSim entries th)) =
      entries.filter (fun e => !decide (e.id ∈
        memberIds (groupSimilar vecSim entries th))) := by
    apply List.filter_congr
    intro e _
    simp
  have hsurv : List.Pairwise (fun x y => vecSim x.vector y.vector < th)
      (entries.filter fun e =>
        e.id ∉ memberIds (groupSimilar vecSim entries th)) := by
    rw [hsurvFilter, groupSimilar_eq_groupSpec vecSim th entries hnd]
    exact groupSpec_survivors_pairwise vecSim th entries.length entries
      le_rfl hnd
  refine ⟨hsurv, ?_⟩
  have hne : List.Pairwise (fun x y : ContextEntry => x.id ≠ y.id)
      (afterCleanup vecSim mkMerged entries th) := by
    have h := hndPost
    rw [List.Nodup] at h
    exact (List.pairwise_map.mp h)
  have hpost : afterCleanup vecSim mkMerged entries th =
      entries.filter (fun e => !decide (e.id ∈
        memberIds (groupSimilar vecSim entries th))) ++
      (groupSimilar vecSim entries th).map mkMerged := by
    rw [afterCleanup, hsurvFilter]
  have hpw : List.Pairwise (fun x y => vecSim x.vector y.vector < th)
      (afterCleanup vecSim mkMerged entries th) := by
    rw [hpost]
    rw [hpost] at hne
    obtain ⟨hneS, hneM, hneC⟩ := List.pairwise_append.mp hne
    apply List.pairwise_append.mpr
    refine ⟨?_, ?_, ?_⟩
    · -- survivors of the first run are pairwise dissimilar
      rw [groupSimilar_eq_groupSpec vecSim th entries hnd]
      exact groupSpec_survivors_pairwise vecSim th entries.length entries
        le_rfl hnd
    · -- merged entries pairwise below threshold, by hypothesis
      apply List.pairwise_map.mpr
      apply List.Pairwise.imp_of_mem ?_ (List.pairwise_map.mp hneM)
      intro g1 g2 h1 h2 hneq
      have hmem : mkMerged g2 ∈ afterCleanup vecSim mkMerged entries th := by
        rw [hpost]
        exact List.mem_append_right _ (List.mem_map_of_mem mkMerged h2)
      exact (hmerged g1 h1 (mkMerged g2) hmem (Ne.symm hneq)).1
    · -- survivors below threshold against every merged entry
      intro s hs m hm
      obtain ⟨g, hg, rfl⟩ := List.mem_map.mp hm
      have hsmem : s ∈ afterCleanup vecSim mkMerged entries th := by
        rw [hpost]
        exact List.mem_append_left _ hs
      exact (hmerged g hg s hsmem (hneC s hs (mkMerged g)
        (List.mem_map_of_mem mkMerged hg))).2
  rw [groupSimilar_eq_groupSpec vecSim th _ hndPost]
  exact groupSpec_eq_nil_of_pairwise vecSim th _ hpw



/-- Evaluation of `groupSimilar` on three entries with the claimed
similarities: one cluster `[A, B]`. -/
lemma groupSimilar_three (vecSim : List ℝ → List ℝ → ℝ) (A B C : ContextEntry)
    (hAB : vecSim A.vector B.vector = 0.9)
    (hAC : vecSim A.vector C.vector = 0.2)
    (hab : A.id ≠ B.id) (hac : A.id ≠ C.id) (hbc : B.id ≠ C.id) :
    groupSimilar vecSim [A, B, C] 0.85 = [[A, B]] := by
  have h1 : (0.85:ℝ) ≤ 0.9 := by norm_num
  have h2 : ¬((0.85:ℝ) ≤ 0.2) := by norm_num
  have hba : B.id ≠ A.id := Ne.symm hab
  have hca : C.id ≠ A.id := Ne.symm hac
  have hcb : C.id ≠ B.id := Ne.symm hbc
  simp [groupSimilar, groupSimilarAux, absorbFold, hAB, hAC, h1, h2,
    hba, hca, hcb, Finset.mem_insert]



/-- C7: greedy scan-order clustering.  For entries `A`, `B`, `C` with
similarities `sim(A,B) = 0.9`, `sim(A,C) = 0.2`, `sim(B,C) = 0.2` and
threshold `0.85`, the result is exactly one cluster `[A, B]` and `C`
appears in no cluster; and in general every kept cluster has more than one
member (size-1 clusters are discarded). -/
theorem groupSimilar_greedy_clusters (vecSim : List ℝ → List ℝ → ℝ)
    (A B C : ContextEntry)
    (hAB : vecSim A.vector B.vector = 0.9)
    (hAC : vecSim A.vector C.vector = 0.2)
    (_hBC : vecSim B.vector C.vector = 0.2)
    (hab : A.id ≠ B.id) (hac : A.id ≠ C.id) (hbc : B.id ≠ C.id) :
    groupSimilar vecSim [A, B, C] 0.85 = [[A, B]] ∧
    (∀ g ∈ groupSimilar vecSim [A, B, C] 0.85, C ∉ g) ∧
    (∀ (l : List ContextEntry) (th : ℝ) (g : List ContextEntry),
      g ∈ groupSimilar vecSim l th → 1 < g.length) := by
  have hmain := groupSimilar_three vecSim A B C hAB hAC hab hac hbc
  refine ⟨hmain, ?_, fun l th g hg => groupSimilarAux_size vecSim th l ∅ g hg⟩
  intro g hg
  rw [hmain] at hg
  rw [List.mem_singleton] at hg
  rw [hg]
  intro hC
  rcases List.mem_cons.mp hC with h | h
  · exact hac (by rw [h])
  · rw [List.mem_singleton] at h
    exact hbc (by rw [h])

/-- C7, witness: the greedy-clustering theorem at a concrete similarity
function and three concrete entries. -/
theorem groupSimilar_greedy_clusters_witness :
    groupSimilar vecSimPair [cleanupA, cleanupB, cleanupC] 0.85 =
      [[cleanupA, cleanupB]] ∧
    (∀ g ∈ groupSimilar vecSimPair [cleanupA, cleanupB, cleanupC] 0.85,
      cleanupC ∉ g) ∧
    (∀ (l : List ContextEntry) (th : ℝ) (g : List ContextEntry),
      g ∈ groupSimilar vecSimPair l th → 1 < g.length) :=
  groupSimilar_greedy_clusters vecSimPair cleanupA cleanupB cleanupC
    (by simp [vecSimPair, cleanupA, cleanupB, mkEntry])
    (by norm_num [vecSimPair, cleanupA, cleanupC, mkEntry])
    (by norm_num [vecSimPair, cleanupB, cleanupC, mkEntry])
    (by simp [cleanupA, cleanupB, mkEntry])
    (by simp [cleanupA, cleanupC, mkEntry])
    (by simp [cleanupB, cleanupC, mkEntry])

/-- C8, witness: the amended theorem at a concrete non-trivial store.  The
first run on entries `a`, `b`, `c` (vectors `[1]`, `[2]`, `[3]`, with
`sim([1],[2]) = 0.9` and everything else `0.2`) merges the cluster
`[a, b]` into the entry `m` with re-embedded vector `[4]`; since `m`'s
vector is dissimilar to the survivor `c` (similarity `0.2 < 0.85`), every
hypothesis of the amended theorem holds non-vacuously, and the second run
on the post-run store `[c, m]` finds zero clusters. -/
theorem afterCleanup_second_run_empty_witness :
    List.Pairwise (fun x y => vecSimPair x.vector y.vector < 0.85)
      ([cleanupA, cleanupB, cleanupC].filter fun e =>
        e.id ∉ memberIds
          (groupSimilar vecSimPair [cleanupA, cleanupB, cleanupC] 0.85)) ∧
    groupSimilar vecSimPair
      (afterCleanup vecSimPair (fun _ => cleanupM)
        [cleanupA, cleanupB, cleanupC] 0.85) 0.85 = [] := by
  have hAB : vecSimPair cleanupA.vector cleanupB.vector = 0.9 := by
    simp [vecSimPair, cleanupA, cleanupB, mkEntry]
  have hAC : vecSimPair cleanupA.vector cleanupC.vector = 0.2 := by
    norm_num [vecSimPair, cleanupA, cleanupC, mkEntry]
  have hfirst := groupSimilar_three vecSimPair cleanupA cleanupB cleanupC
    hAB hAC (by simp [cleanupA, cleanupB, mkEntry])
    (by simp [cleanupA, cleanupC, mkEntry])
    (by simp [cleanupB, cleanupC, mkEntry])
  have hpost : afterCleanup vecSimPair (fun _ => cleanupM)
      [cleanupA, cleanupB, cleanupC] 0.85 = [cleanupC, cleanupM] := by
    rw [afterCleanup, hfirst]
    simp [memberIds, cleanupA, cleanupB, cleanupC, mkEntry]
  apply afterCleanup_second_run_empty vecSimPair (fun _ => cleanupM)
    [cleanupA, cleanupB, cleanupC] 0.85
  · simp [cleanupA, cleanupB, cleanupC, mkEntry]
  · rw [hpost]
    simp [cleanupC, cleanupM, mkEntry]
  · intro g hg x hx hne
    rw [hfirst, List.mem_singleton] at hg
    rw [hpost] at hx
    rcases List.mem_cons.mp hx with rfl | hx'
    · constructor <;> norm_num [vecSimPair, cleanupC, cleanupM, mkEntry]
    · rw [List.mem_singleton] at hx'
      rw [hx'] at hne
      exact absurd rfl hne

/-- C8, counterexample to unconditional idempotence: entries `a`, `b`, `c`
with `sim(a,b) = 0.9` and all else `0.2` are consolidated into the store
`[c, m]`, where `m` is the merged entry whose re-embedded vector happens to
satisfy `sim(c,m) = 0.9 ≥ 0.85`; the second run then finds the cluster
`[c, m]`, not zero clusters. -/
theorem runCleanup_reclustering_counterexample :
    groupSimilar vecSimChain
      (afterCleanup vecSimChain (fun _ => cleanupM) [cleanupA, cleanupB, cleanupC]
        0.85) 0.85 = [[cleanupC, cleanupM]] ∧
    groupSimilar vecSimChain
      (afterCleanup vecSimChain (fun _ => cleanupM) [cleanupA, cleanupB, cleanupC]
        0.85) 0.85 ≠ [] := by
  have hfirst := groupSimilar_three vecSimChain cleanupA cleanupB cleanupC
    (by simp [vecSimChain, cleanupA, cleanupB, mkEntry])
    (by norm_num [vecSimChain, cleanupA, cleanupC, mkEntry])
    (by simp [cleanupA, cleanupB, mkEntry])
    (by simp [cleanupA, cleanupC, mkEntry])
    (by simp [cleanupB, cleanupC, mkEntry])
  have hpost : afterCleanup vecSimChain (fun _ => cleanupM)
      [cleanupA, cleanupB, cleanupC] 0.85 = [cleanupC, cleanupM] := by
    rw [afterCleanup]
    rw [hfirst]
    simp [memberIds, cleanupA, cleanupB, cleanupC, mkEntry]
  rw [hpost]
  have hsecond : groupSimilar vecSimChain [cleanupC, cleanupM] 0.85 =
      [[cleanupC, cleanupM]] := by
    have h1 : (0.85:ℝ) ≤ 0.9 := by norm_num
    have hCM : vecSimChain [3] [4] = 0.9 := by
      norm_num [vecSimChain]
    simp [groupSimilar, groupSimilarAux, absorbFold, hCM, h1,
      cleanupC, cleanupM, mkEntry, Finset.mem_insert]
  rw [hsecond]
  simp

end SlidingContext
